import Mathlib

/-!
# Blockchain data crawler: a shallow embedding of `main.go`

The crawler walks a block range in batches, fetches every block and every
transaction receipt from an RPC node, and inserts normalised rows into a
relational store.  The RPC node and the store are outside the program, so
every function below takes them as a record of state-passing operations over
an arbitrary world type `ω`; each function returns the Go return value, the
world after the call, and the list of observable events it produced.

Machine integers are natural numbers reduced modulo `2 ^ 64` where the Go code
can wrap.  A Go `error` is `Option Err` (`none` is `nil`).
-/

namespace Crawler

/-- The message carried by a Go `error`. -/
abbrev Err := String

/-- One octet of a `[]byte`. -/
abbrev Byte := Fin 256

/-- The modulus of `uint64` arithmetic. -/
def u64 : Nat := 2 ^ 64

/-- The conversion `int64(x)` of a `uint64` value. -/
def int64 (x : Nat) : Int :=
  if x % u64 < 2 ^ 63 then ((x % u64 : Nat) : Int) else ((x % u64 : Nat) : Int) - (u64 : Int)

/-! ## Chain data (go-ethereum `types`) -/

/-- A receipt log entry, `types.Log`. Hashes and addresses are the numbers
their bytes spell in big-endian order. -/
structure Log where
  Address : Nat
  Topics : List Nat
  Data : List Byte
  Index : Nat
  TxHash : Nat
deriving DecidableEq, Repr

/-- A transaction receipt, `types.Receipt`. -/
structure Receipt where
  TxHash : Nat
  GasUsed : Nat
  Status : Nat
  Logs : List Log
deriving DecidableEq, Repr

/-- A transaction, `types.Transaction`; `To` is `none` for a contract creation. -/
structure Transaction where
  Hash : Nat
  To : Option Nat
  Value : Nat
  GasPrice : Nat
  Data : List Byte
  ChainId : Nat
deriving DecidableEq, Repr

/-- A block, `types.Block`. -/
structure Block where
  Number : Nat
  Hash : Nat
  ParentHash : Nat
  Time : Nat
  GasLimit : Nat
  GasUsed : Nat
  Coinbase : Nat
  Difficulty : Nat
  Size : Nat
  Transactions : List Transaction
deriving DecidableEq, Repr

/-! ## Rows and statements sent to the store -/

/-- The eleven arguments of the `INSERT INTO blocks` statement of `saveBlock`. -/
structure BlockRow where
  number : Nat
  hash : String
  parent_hash : String
  timestamp : Int
  gas_limit : Nat
  gas_used : Nat
  miner : String
  difficulty : String
  total_difficulty : String
  size_bytes : Nat
  tx_count : Nat
deriving DecidableEq, Repr

/-- The Go struct `TransactionData`. -/
structure TransactionData where
  Hash : String
  From : String
  To : String
  Value : String
  GasPrice : String
  GasUsed : Nat
  BlockNumber : Nat
  Timestamp : Int
  Status : Nat
  Input : String
deriving DecidableEq, Repr

/-- The ten arguments of the `INSERT INTO transactions` statement. The column
`to_address` is nullable in the schema, so its argument is an optional text. -/
structure TransactionRow where
  hash : String
  from_address : String
  to_address : Option String
  value : String
  gas_price : String
  gas_used : Nat
  block_number : Nat
  timestamp : Int
  status : Nat
  input_data : String
deriving DecidableEq, Repr

/-- The Go struct `TokenTransfer`; its fields are the arguments of the
`INSERT INTO token_transfers` statement in order. -/
structure TokenTransfer where
  TxHash : String
  LogIndex : Nat
  From : String
  To : String
  Value : String
  Token : String
  BlockNumber : Nat
  Timestamp : Int
deriving DecidableEq, Repr

/-- The seven arguments of the `INSERT INTO contract_events` statement. -/
structure EventRow where
  tx_hash : String
  log_index : Nat
  contract_address : String
  event_name : String
  block_number : Nat
  timestamp : Int
  event_data : String
deriving DecidableEq, Repr

/-- The four statements the crawler executes with `db.Exec`; each is an
`INSERT ... ON CONFLICT (key) DO NOTHING`. -/
inductive Stmt where
  | insertBlock (r : BlockRow)
  | insertTransaction (r : TransactionRow)
  | insertTokenTransfer (r : TokenTransfer)
  | insertContractEvent (r : EventRow)
deriving DecidableEq, Repr

/-- A value stored in a decoded event's field mapping (`interface{}`): either
what the ABI decoder produced or a Go string. -/
inductive Value where
  | abi (raw : List Byte)
  | str (s : String)
deriving DecidableEq, Repr

/-- The argument of `FilterLogs`: one block, one contract address. -/
structure FilterQuery where
  FromBlock : Nat
  ToBlock : Nat
  Addresses : List Nat
deriving DecidableEq, Repr

/-- What an observer of the node and the store sees, in order. -/
inductive Ev where
  | log (tag : String)
  | blockByNumber (n : Int) (ok : Bool)
  | receipt (txHash : Nat) (ok : Bool)
  | filterLogs (q : FilterQuery) (ok : Bool)
  | exec (s : Stmt) (ok : Bool)
  | query (text : String) (args : List Int) (ok : Bool)
deriving DecidableEq, Repr

/-- The result of a call: Go return value, world afterwards, events produced. -/
abbrev Res (ω α : Type) := α × ω × List Ev

/-! ## `Start`: the range scheduler -/

/-- What `Start` does, in order: a log line, a call of `processBatch` with its
arguments, the events of that call and its return value, or the pause that
follows a batch without error. -/
inductive StartEv where
  | log (tag : String)
  | batch (blockNum endBlock : Nat) (inner : List Ev) (err : Option Err)
  | sleep
deriving DecidableEq, Repr

/-- The loop of `Start`, run for at most `fuel` iterations from loop variable
`blockNum`. The first component is `none` while the loop is still running when
the fuel is spent, and `some err` once `Start` has returned `err`. -/
def StartLoop {ω : Type} (processBatch : Nat → Nat → ω → Res ω (Option Err))
    (bcEndBlock batchSize : Nat) : Nat → Nat → ω → Option (Option Err) × ω × List StartEv
  | 0, _, w => (none, w, [])
  | fuel + 1, blockNum, w =>
    if blockNum ≤ bcEndBlock then
      let endBlock0 := (blockNum + batchSize + (u64 - 1)) % u64
      let endBlock := if endBlock0 > bcEndBlock then bcEndBlock else endBlock0
      let r := processBatch blockNum endBlock w
      let after : List StartEv :=
        match r.1 with
        | some _ => [StartEv.log "处理批次失败"]
        | none => [StartEv.sleep]
      let rest := StartLoop processBatch bcEndBlock batchSize fuel
        ((blockNum + batchSize) % u64) r.2.1
      (rest.1, rest.2.1,
        StartEv.log "处理区块范围" :: StartEv.batch blockNum endBlock r.2.2 r.1 ::
          (after ++ rest.2.2))
    else
      (some none, w, [StartEv.log "爬取完成"])

/-- The method `Start` of a crawler with fields `startBlock`, `endBlock`,
`batchSize`, run for at most `fuel` loop iterations. -/
def Start {ω : Type} (processBatch : Nat → Nat → ω → Res ω (Option Err))
    (startBlock bcEndBlock batchSize : Nat) (fuel : Nat) (w : ω) :
    Option (Option Err) × ω × List StartEv :=
  let r := StartLoop processBatch bcEndBlock batchSize fuel startBlock w
  (r.1, r.2.1, StartEv.log "开始爬取区块" :: r.2.2)

/-- The `(blockNum, endBlock)` pairs handed to `processBatch`, in order. -/
def batchesOf : List StartEv → List (Nat × Nat)
  | [] => []
  | StartEv.batch b e _ _ :: t => (b, e) :: batchesOf t
  | _ :: t => batchesOf t

/-- The closed intervals the range scheduler is specified to produce:
`[b, min (b + batchSize - 1) end]` for `b = start, start + batchSize, ...`,
`count` of them. -/
def specBatches (bcEndBlock batchSize : Nat) : Nat → Nat → List (Nat × Nat)
  | 0, _ => []
  | count + 1, b => (b, min (b + batchSize - 1) bcEndBlock) ::
      specBatches bcEndBlock batchSize count (b + batchSize)

/-- The number of batches of the range `[start, end]`. -/
def batchCount (startBlock bcEndBlock batchSize : Nat) : Nat :=
  (bcEndBlock - startBlock) / batchSize + 1

/-! ## The node, the store and the go-ethereum helpers -/

/-- A Go `map[string]T` as an association list in iteration order. -/
abbrev GoMap (α : Type) := List (String × α)

/-- The assignment `m[k] = v`. -/
def GoMap.set {α : Type} (m : GoMap α) (k : String) (v : α) : GoMap α :=
  (k, v) :: m.filter (fun kv => kv.1 ≠ k)

/-- The lookup `m[k]`. -/
def GoMap.get {α : Type} (m : GoMap α) (k : String) : Option α :=
  m.lookup k

/-- The JSON-configured event: topic-0 signature and declared fields. -/
structure EventConfig where
  Signature : String
  Fields : GoMap String
deriving DecidableEq, Repr

/-- The JSON-configured contract. -/
structure ContractConfig where
  Address : String
  ABI : String
  Events : GoMap EventConfig
deriving DecidableEq, Repr

/-- The Go struct `EventData`. -/
structure EventData where
  TxHash : String
  LogIndex : Nat
  Address : String
  EventName : String
  BlockNumber : Nat
  Timestamp : Int
  Data : GoMap Value
deriving DecidableEq, Repr

/-- The Go struct `TokenStats`. -/
structure TokenStats where
  TokenAddress : String
  TransferCount : Int
  UniqueSenders : Int
  UniqueReceivers : Int
  TotalVolume : String
deriving DecidableEq, Repr

/-- Everything outside the program: the RPC client, the store connection and
the go-ethereum and `encoding/json` helpers whose code is not in the
repository. The first five operations act on the world. -/
structure Sys (ω : Type) where
  BlockByNumber : Int → ω → Except Err Block × ω
  TransactionReceipt : Nat → ω → Except Err Receipt × ω
  FilterLogs : FilterQuery → ω → Except Err (List Log) × ω
  Exec : Stmt → ω → Option Err × ω
  Query : String → List Int → ω → Except Err (List TokenStats) × ω
  Sender : Transaction → Except Err Nat
  AddressHex : Nat → String
  HexToAddress : String → Nat
  abiJSON : String → Option Err
  UnpackIntoMap : String → String → List Byte → Except Err (GoMap Value)
  jsonMarshal : GoMap Value → Except Err String

/-- One lowercase hexadecimal digit. -/
def hexDigit (d : Nat) : Char :=
  if d < 10 then Char.ofNat (48 + d) else Char.ofNat (87 + d)

/-- The `k` low hexadecimal digits of `n`, most significant first. -/
def hexDigits : Nat → Nat → List Char
  | 0, _ => []
  | k + 1, n => hexDigits k (n / 16) ++ [hexDigit (n % 16)]

/-- The method `common.Hash.Hex`: `0x` and 64 lowercase digits. -/
def hashHex (h : Nat) : String :=
  "0x" ++ String.mk (hexDigits 64 h)

/-- The call `fmt.Sprintf("0x%x", data)` on a byte slice. -/
def bytesHex (data : List Byte) : String :=
  "0x" ++ String.mk (data.flatMap (fun b => hexDigits 2 b.val))

/-- The call `new(big.Int).SetBytes(data)`: big-endian unsigned reading. -/
def setBytes (data : List Byte) : Nat :=
  data.foldl (fun acc b => acc * 256 + b.val) 0

/-- The method `String` of a non-negative `big.Int`: its decimal numeral. -/
def bigString (n : Nat) : String :=
  Nat.repr n

/-- The constant `transferTopic`: the ERC-20 `Transfer` signature hash. -/
def transferTopic : Nat :=
  0xddf252ad1be2c89b69c2b068fc378daa952ba7f163c4a11628f55a4df523b3ef

/-- The value `time.Unix(int64(block.Time()), 0)` as seconds since the epoch. -/
def blockTimestamp (block : Block) : Int :=
  int64 block.Time

/-- The value `block.Number().Uint64()`. -/
def blockNumberU64 (block : Block) : Nat :=
  block.Number % u64

/-! ## Persisting rows -/

/-- The arguments `saveBlock` passes to `db.Exec`. -/
def blockRow {ω : Type} (sys : Sys ω) (block : Block) : BlockRow :=
  { number := blockNumberU64 block
    hash := hashHex block.Hash
    parent_hash := hashHex block.ParentHash
    timestamp := blockTimestamp block
    gas_limit := block.GasLimit
    gas_used := block.GasUsed
    miner := sys.AddressHex block.Coinbase
    difficulty := bigString block.Difficulty
    total_difficulty := "0"
    size_bytes := block.Size
    tx_count := block.Transactions.length }

/-- The method `saveBlock`. -/
def saveBlock {ω : Type} (sys : Sys ω) (block : Block) (w : ω) : Res ω (Option Err) :=
  let stmt := Stmt.insertBlock (blockRow sys block)
  let r := sys.Exec stmt w
  (r.1, r.2, [Ev.exec stmt r.1.isNone])

/-- The arguments `saveTransaction` passes to `db.Exec`: every field of the
struct as it is, the Go string `tx.To` included. -/
def transactionRow (tx : TransactionData) : TransactionRow :=
  { hash := tx.Hash
    from_address := tx.From
    to_address := some tx.To
    value := tx.Value
    gas_price := tx.GasPrice
    gas_used := tx.GasUsed
    block_number := tx.BlockNumber
    timestamp := tx.Timestamp
    status := tx.Status
    input_data := tx.Input }

/-- The method `saveTransaction`. -/
def saveTransaction {ω : Type} (sys : Sys ω) (tx : TransactionData) (w : ω) :
    Res ω (Option Err) :=
  let stmt := Stmt.insertTransaction (transactionRow tx)
  let r := sys.Exec stmt w
  (r.1, r.2, [Ev.exec stmt r.1.isNone])

/-- The method `saveTokenTransfer`. -/
def saveTokenTransfer {ω : Type} (sys : Sys ω) (transfer : TokenTransfer) (w : ω) :
    Res ω (Option Err) :=
  let stmt := Stmt.insertTokenTransfer transfer
  let r := sys.Exec stmt w
  (r.1, r.2, [Ev.exec stmt r.1.isNone])

/-- The method `saveContractEvent`: marshal the field mapping, then insert. -/
def saveContractEvent {ω : Type} (sys : Sys ω) (event : EventData) (w : ω) :
    Res ω (Option Err) :=
  match sys.jsonMarshal event.Data with
  | .error e => (some e, w, [])
  | .ok eventDataJSON =>
    let stmt := Stmt.insertContractEvent
      { tx_hash := event.TxHash
        log_index := event.LogIndex
        contract_address := event.Address
        event_name := event.EventName
        block_number := event.BlockNumber
        timestamp := event.Timestamp
        event_data := eventDataJSON }
    let r := sys.Exec stmt w
    (r.1, r.2, [Ev.exec stmt r.1.isNone])

/-! ## Token transfers -/

/-- The `TokenTransfer` literal built in `processTokenTransfers` for a log. -/
def transferOf {ω : Type} (sys : Sys ω) (receipt : Receipt) (block : Block) (vLog : Log) :
    TokenTransfer :=
  { TxHash := hashHex receipt.TxHash
    LogIndex := vLog.Index
    From := sys.AddressHex (sys.HexToAddress (hashHex (vLog.Topics.getD 1 0)))
    To := sys.AddressHex (sys.HexToAddress (hashHex (vLog.Topics.getD 2 0)))
    Value := bigString (setBytes vLog.Data)
    Token := sys.AddressHex vLog.Address
    BlockNumber := blockNumberU64 block
    Timestamp := blockTimestamp block }

/-- The loop of `processTokenTransfers` over the remaining logs. -/
def processTokenTransfersLoop {ω : Type} (sys : Sys ω) (receipt : Receipt) (block : Block) :
    List Log → ω → ω × List Ev
  | [], w => (w, [])
  | vLog :: rest, w =>
    if 0 < vLog.Topics.length ∧ vLog.Topics.head? = some transferTopic then
      if vLog.Topics.length = 3 ∧ vLog.Data.length = 32 then
        let r := saveTokenTransfer sys (transferOf sys receipt block vLog) w
        let logged : List Ev :=
          match r.1 with
          | some _ => [Ev.log "保存代币转账失败"]
          | none => []
        let k := processTokenTransfersLoop sys receipt block rest r.2.1
        (k.1, r.2.2 ++ logged ++ k.2)
      else processTokenTransfersLoop sys receipt block rest w
    else processTokenTransfersLoop sys receipt block rest w

/-- The method `processTokenTransfers`. -/
def processTokenTransfers {ω : Type} (sys : Sys ω) (receipt : Receipt) (block : Block)
    (w : ω) : Res ω (Option Err) :=
  let k := processTokenTransfersLoop sys receipt block receipt.Logs w
  (none, k.1, k.2)

/-! ## Transactions -/

/-- The method `getTransactionSender`: empty when recovery fails. -/
def getTransactionSender {ω : Type} (sys : Sys ω) (tx : Transaction) : String :=
  match sys.Sender tx with
  | .error _ => ""
  | .ok sender => sys.AddressHex sender

/-- The struct `txData` of `processTransaction` just before it is saved. -/
def txDataOf {ω : Type} (sys : Sys ω) (tx : Transaction) (block : Block) (receipt : Receipt) :
    TransactionData :=
  let txData : TransactionData :=
    { Hash := hashHex tx.Hash
      From := getTransactionSender sys tx
      To := ""
      Value := bigString tx.Value
      GasPrice := bigString tx.GasPrice
      GasUsed := receipt.GasUsed
      BlockNumber := blockNumberU64 block
      Timestamp := blockTimestamp block
      Status := receipt.Status
      Input := bytesHex tx.Data }
  match tx.To with
  | some recipient => { txData with To := sys.AddressHex recipient }
  | none => txData

/-- The method `processTransaction`. -/
def processTransaction {ω : Type} (sys : Sys ω) (tx : Transaction) (block : Block) (w : ω) :
    Res ω (Option Err) :=
  match sys.TransactionReceipt tx.Hash w with
  | (.error e, w1) => (some e, w1, [Ev.receipt tx.Hash false])
  | (.ok receipt, w1) =>
    let s := saveTransaction sys (txDataOf sys tx block receipt) w1
    match s.1 with
    | some e => (some e, s.2.1, Ev.receipt tx.Hash true :: s.2.2)
    | none =>
      let t := processTokenTransfers sys receipt block s.2.1
      let logged : List Ev :=
        match t.1 with
        | some _ => [Ev.log "处理代币转账失败"]
        | none => []
      (none, t.2.1, Ev.receipt tx.Hash true :: (s.2.2 ++ t.2.2 ++ logged))

/-! ## Configured contract events -/

/-- The key `fmt.Sprintf("indexed_%d", i)`. -/
def indexedKey (i : Nat) : String :=
  "indexed_" ++ Nat.repr i

/-- The loop `for i, topic := range vLog.Topics[1:]` of
`processContractEventsForAddress`, from index `i` over the remaining topics,
where `nFields` is `len(eventConfig.Fields)`. -/
def addIndexed (nFields : Nat) : Nat → List Nat → GoMap Value → GoMap Value
  | _, [], eventData => eventData
  | i, topic :: rest, eventData =>
    if i < nFields then
      addIndexed nFields (i + 1) rest (eventData.set (indexedKey i) (Value.str (hashHex topic)))
    else
      addIndexed nFields (i + 1) rest eventData

/-- The `EventData` literal built for a matching log whose payload decoded to
`unpacked`. -/
def eventOf (block : Block) (eventName : String) (eventConfig : EventConfig) (vLog : Log)
    (unpacked : GoMap Value) (addressHex : Nat → String) : EventData :=
  { TxHash := hashHex vLog.TxHash
    LogIndex := vLog.Index
    Address := addressHex vLog.Address
    EventName := eventName
    BlockNumber := blockNumberU64 block
    Timestamp := blockTimestamp block
    Data := addIndexed eventConfig.Fields.length 0 vLog.Topics.tail unpacked }

/-- The loop `for eventName, eventConfig := range config.Events` for one log. -/
def eventsLoop {ω : Type} (sys : Sys ω) (contractABI : String) (block : Block) (vLog : Log) :
    GoMap EventConfig → ω → ω × List Ev
  | [], w => (w, [])
  | (eventName, eventConfig) :: rest, w =>
    if 0 < vLog.Topics.length ∧ vLog.Topics.head?.map hashHex = some eventConfig.Signature then
      match sys.UnpackIntoMap contractABI eventName vLog.Data with
      | .error _ =>
        let k := eventsLoop sys contractABI block vLog rest w
        (k.1, Ev.log "解析事件数据失败" :: k.2)
      | .ok unpacked =>
        let r := saveContractEvent sys
          (eventOf block eventName eventConfig vLog unpacked sys.AddressHex) w
        let logged : List Ev :=
          match r.1 with
          | some _ => [Ev.log "保存合约事件失败"]
          | none => []
        let k := eventsLoop sys contractABI block vLog rest r.2.1
        (k.1, r.2.2 ++ logged ++ k.2)
    else eventsLoop sys contractABI block vLog rest w

/-- The loop `for _, vLog := range logs`. -/
def logsLoop {ω : Type} (sys : Sys ω) (config : ContractConfig) (block : Block) :
    List Log → ω → ω × List Ev
  | [], w => (w, [])
  | vLog :: rest, w =>
    let r := eventsLoop sys config.ABI block vLog config.Events w
    let k := logsLoop sys config block rest r.1
    (k.1, r.2 ++ k.2)

/-- The method `processContractEventsForAddress`. -/
def processContractEventsForAddress {ω : Type} (sys : Sys ω) (contractAddr : String)
    (config : ContractConfig) (block : Block) (w : ω) : Res ω (Option Err) :=
  let query : FilterQuery :=
    { FromBlock := block.Number
      ToBlock := block.Number
      Addresses := [sys.HexToAddress contractAddr] }
  match sys.FilterLogs query w with
  | (.error e, w1) => (some e, w1, [Ev.filterLogs query false])
  | (.ok logs, w1) =>
    match sys.abiJSON config.ABI with
    | some e => (some e, w1, [Ev.filterLogs query true])
    | none =>
      let k := logsLoop sys config block logs w1
      (none, k.1, Ev.filterLogs query true :: k.2)

/-- The method `processContractEvents` over the configured contracts in
iteration order. -/
def processContractEvents {ω : Type} (sys : Sys ω) (block : Block) :
    GoMap ContractConfig → ω → Res ω (Option Err)
  | [], w => (none, w, [])
  | (contractAddr, config) :: rest, w =>
    let r := processContractEventsForAddress sys contractAddr config block w
    match r.1 with
    | some e => (some e, r.2.1, r.2.2)
    | none =>
      let k := processContractEvents sys block rest r.2.1
      (k.1, k.2.1, r.2.2 ++ k.2.2)

/-! ## Blocks and batches -/

/-- The loop `for _, tx := range block.Transactions()` of `processBlock`. -/
def processBlockTxLoop {ω : Type} (sys : Sys ω) (block : Block) :
    List Transaction → ω → ω × List Ev
  | [], w => (w, [])
  | tx :: rest, w =>
    let r := processTransaction sys tx block w
    let logged : List Ev :=
      match r.1 with
      | some _ => [Ev.log "处理交易失败"]
      | none => []
    let k := processBlockTxLoop sys block rest r.2.1
    (k.1, r.2.2 ++ logged ++ k.2)

/-- The method `processBlock` of a crawler whose field `contracts` is
`contracts`. -/
def processBlock {ω : Type} (sys : Sys ω) (contracts : GoMap ContractConfig)
    (blockNumber : Nat) (w : ω) : Res ω (Option Err) :=
  match sys.BlockByNumber (int64 blockNumber) w with
  | (.error e, w1) => (some e, w1, [Ev.blockByNumber (int64 blockNumber) false])
  | (.ok block, w1) =>
    let s := saveBlock sys block w1
    match s.1 with
    | some e => (some e, s.2.1, Ev.blockByNumber (int64 blockNumber) true :: s.2.2)
    | none =>
      let t := processBlockTxLoop sys block block.Transactions s.2.1
      let c := processContractEvents sys block contracts t.1
      let logged : List Ev :=
        match c.1 with
        | some _ => [Ev.log "处理合约事件失败"]
        | none => []
      (none, c.2.1, Ev.blockByNumber (int64 blockNumber) true ::
        (s.2.2 ++ t.2 ++ c.2.2 ++ logged ++ [Ev.log "完成处理区块"]))

/-- The loop of `processBatch`, run for at most `fuel` iterations from loop
variable `blockNum`; `none` in the first component means still running. -/
def processBatchLoop {ω : Type} (sys : Sys ω) (contracts : GoMap ContractConfig)
    (endBlock : Nat) : Nat → Nat → ω → Res ω (Option (Option Err))
  | 0, _, w => (none, w, [])
  | fuel + 1, blockNum, w =>
    if blockNum ≤ endBlock then
      let r := processBlock sys contracts blockNum w
      match r.1 with
      | some e =>
        (some (some ("处理区块 " ++ Nat.repr blockNum ++ " 失败: " ++ e)), r.2.1, r.2.2)
      | none =>
        let k := processBatchLoop sys contracts endBlock fuel ((blockNum + 1) % u64) r.2.1
        (k.1, k.2.1, r.2.2 ++ k.2.2)
    else (some none, w, [])

/-- The method `processBatch`, run for at most `fuel` loop iterations. -/
def processBatch {ω : Type} (sys : Sys ω) (contracts : GoMap ContractConfig)
    (startBlock endBlock : Nat) (fuel : Nat) (w : ω) : Res ω (Option (Option Err)) :=
  processBatchLoop sys contracts endBlock fuel startBlock w

/-! ## The aggregation query -/

/-- The query template of `GetTopTokensByVolume` up to its `%d` verb. -/
def topTokensQueryHead : String :=
  "\n" ++
    "        SELECT \n" ++
    "            token_address,\n" ++
    "            COUNT(*) as transfer_count,\n" ++
    "            COUNT(DISTINCT from_address) as unique_senders,\n" ++
    "            COUNT(DISTINCT to_address) as unique_receivers,\n" ++
    "            SUM(CAST(value AS DECIMAL)) as total_volume\n" ++
    "        FROM token_transfers \n" ++
    "        WHERE timestamp > NOW() - INTERVAL \x27"

/-- The query template of `GetTopTokensByVolume` after its `%d` verb. -/
def topTokensQueryTail : String :=
  " days\x27\n" ++
    "        GROUP BY token_address\n" ++
    "        ORDER BY total_volume DESC\n" ++
    "        LIMIT $1"

/-- The rendering of an `int` by the verb `%d`: the decimal numeral, with a
minus sign when negative. -/
def sprintfD : Int → String
  | .ofNat m => Nat.repr m
  | .negSucc m => "-" ++ Nat.repr (m + 1)

/-- The text `fmt.Sprintf(query, days)`: the template has the single verb
`%d`, which is replaced by the decimal numeral of `days`. -/
def topTokensQueryText (days : Int) : String :=
  topTokensQueryHead ++ sprintfD days ++ topTokensQueryTail

/-- The method `GetTopTokensByVolume`: one `db.Query` call whose bound
arguments are `[limit]`. The answer of `Query` stands for the rows scanned
into `TokenStats` values, or for the error of the query or of a scan. -/
def GetTopTokensByVolume {ω : Type} (sys : Sys ω) (limit days : Int) (w : ω) :
    Res ω (Except Err (List TokenStats)) :=
  let r := sys.Query (topTokensQueryText days) [limit] w
  let ok : Bool :=
    match r.1 with
    | .ok _ => true
    | .error _ => false
  (r.1, r.2, [Ev.query (topTokensQueryText days) [limit] ok])

/-! ## The relational store -/

/-- The four tables of `initDatabase`, without the columns the store fills in
itself (`id`, `created_at`). -/
structure Store where
  blocks : List BlockRow
  transactions : List TransactionRow
  token_transfers : List TokenTransfer
  contract_events : List EventRow
deriving DecidableEq, Repr

/-- The rows of `blocks` with primary key `number`. -/
def Store.blockAt (s : Store) (number : Nat) : List BlockRow :=
  s.blocks.filter (fun x => x.number = number)

/-- The rows of `transactions` with primary key `hash`. -/
def Store.transactionAt (s : Store) (hash : String) : List TransactionRow :=
  s.transactions.filter (fun x => x.hash = hash)

/-- The unique key `(tx_hash, log_index)` of a token-transfer row. -/
def TokenTransfer.key (x : TokenTransfer) : String × Nat :=
  (x.TxHash, x.LogIndex)

/-- The unique key `(tx_hash, log_index)` of a contract-event row. -/
def EventRow.key (x : EventRow) : String × Nat :=
  (x.tx_hash, x.log_index)

/-- The rows of `token_transfers` with unique key `(tx_hash, log_index)`. -/
def Store.transferAt (s : Store) (key : String × Nat) : List TokenTransfer :=
  s.token_transfers.filter (fun x => x.key = key)

/-- The rows of `contract_events` with unique key `(tx_hash, log_index)`. -/
def Store.eventAt (s : Store) (key : String × Nat) : List EventRow :=
  s.contract_events.filter (fun x => x.key = key)

/-- The uniqueness constraints of the schema: `number` and `hash` on `blocks`,
`hash` on `transactions`, `(tx_hash, log_index)` on the two log tables. -/
def Store.WF (s : Store) : Prop :=
  (s.blocks.map (fun x => x.number)).Nodup ∧
  (s.blocks.map (fun x => x.hash)).Nodup ∧
  (s.transactions.map (fun x => x.hash)).Nodup ∧
  (s.token_transfers.map (fun x => x.key)).Nodup ∧
  (s.contract_events.map (fun x => x.key)).Nodup

instance Store.decidableWF (s : Store) : Decidable s.WF := by
  unfold Store.WF
  infer_instance

/-- Modelled from the spec: the relational store behind `db.Exec` is not in
the repository. This is what the store does with a statement it admits.
Section 4.5 of the specification makes every write an insert-if-absent on the
key of section 3 and a duplicate write for an existing key a silent no-op, as
the `ON CONFLICT (key) DO NOTHING` clause of each statement says; section 6
and the schema of `initDatabase` make `blocks.hash` unique, so a new block
whose `hash` is already stored is refused. -/
def Store.insert : Stmt → Store → Option Err × Store
  | .insertBlock r, s =>
    if ∃ x ∈ s.blocks, x.number = r.number then (none, s)
    else if ∃ x ∈ s.blocks, x.hash = r.hash then
      (some "duplicate key value violates unique constraint", s)
    else (none, { s with blocks := s.blocks ++ [r] })
  | .insertTransaction r, s =>
    if ∃ x ∈ s.transactions, x.hash = r.hash then (none, s)
    else (none, { s with transactions := s.transactions ++ [r] })
  | .insertTokenTransfer r, s =>
    if ∃ x ∈ s.token_transfers, x.key = r.key then (none, s)
    else (none, { s with token_transfers := s.token_transfers ++ [r] })
  | .insertContractEvent r, s =>
    if ∃ x ∈ s.contract_events, x.key = r.key then (none, s)
    else (none, { s with contract_events := s.contract_events ++ [r] })

/-- Modelled from the spec: the answer of `db.Exec`, which is not in the
repository. Section 4.5 of the specification speaks of single-row write
failures: `refuses` stands for every reason the driver or the database has to
refuse a statement in a given state other than the constraints of the schema
(an argument out of range for the driver or for its column, a lost
connection). A refused statement reports the error and leaves the store as it
is; an admitted statement is an insert-if-absent (`Store.insert`). -/
def Store.exec (refuses : Stmt → Store → Option Err) (st : Stmt) (s : Store) :
    Option Err × Store :=
  match refuses st s with
  | some e => (some e, s)
  | none => Store.insert st s

/-- The arguments `saveContractEvent` passes to `db.Exec` for an event whose
field mapping was marshalled to `eventDataJSON`. -/
def eventRowOf (event : EventData) (eventDataJSON : String) : EventRow :=
  { tx_hash := event.TxHash
    log_index := event.LogIndex
    contract_address := event.Address
    event_name := event.EventName
    block_number := event.BlockNumber
    timestamp := event.Timestamp
    event_data := eventDataJSON }

/-! ## Observations on event lists -/

/-- The token-transfer row an event hands to the store, if it is one. -/
def Ev.asTransfer : Ev → Option TokenTransfer
  | .exec (.insertTokenTransfer r) _ => some r
  | _ => none

/-- The transaction row an event hands to the store, if it is one. -/
def Ev.asTransaction : Ev → Option TransactionRow
  | .exec (.insertTransaction r) _ => some r
  | _ => none

/-- The block row an event hands to the store, if it is one. -/
def Ev.asBlock : Ev → Option BlockRow
  | .exec (.insertBlock r) _ => some r
  | _ => none

/-- The contract-event row an event hands to the store, if it is one. -/
def Ev.asEvent : Ev → Option EventRow
  | .exec (.insertContractEvent r) _ => some r
  | _ => none

/-- The block number an event requests from the node, if it is a request. -/
def Ev.asFetch : Ev → Option Int
  | .blockByNumber n _ => some n
  | _ => none

/-- The token-transfer rows handed to `saveTokenTransfer`, in order. -/
def transfersOf (t : List Ev) : List TokenTransfer :=
  t.filterMap Ev.asTransfer

/-- The transaction rows handed to the store, in order. -/
def transactionsOf (t : List Ev) : List TransactionRow :=
  t.filterMap Ev.asTransaction

/-- The block rows handed to the store, in order. -/
def blocksOf (t : List Ev) : List BlockRow :=
  t.filterMap Ev.asBlock

/-- The contract-event rows handed to the store, in order. -/
def eventRowsOf (t : List Ev) : List EventRow :=
  t.filterMap Ev.asEvent

/-- The block numbers requested from the node, in order. -/
def fetchedOf (t : List Ev) : List Int :=
  t.filterMap Ev.asFetch

/-- The statement an event executes and whether the store accepted it. -/
def Ev.asExec : Ev → Option (Stmt × Bool)
  | .exec s ok => some (s, ok)
  | _ => none

/-- The statements executed, in order, with whether each was accepted. -/
def execsOf (t : List Ev) : List (Stmt × Bool) :=
  t.filterMap Ev.asExec

/-- The block row an event reports as accepted by the store, if it is one. -/
def Ev.asSavedBlock : Ev → Option BlockRow
  | .exec (.insertBlock r) true => some r
  | _ => none

/-- The block rows the store accepted, in order. -/
def savedBlocksOf (t : List Ev) : List BlockRow :=
  t.filterMap Ev.asSavedBlock

/-- The transaction row an event reports as accepted by the store, if it is
one. -/
def Ev.asSavedTransaction : Ev → Option TransactionRow
  | .exec (.insertTransaction r) true => some r
  | _ => none

/-- The transaction rows the store accepted, in order. -/
def savedTransactionsOf (t : List Ev) : List TransactionRow :=
  t.filterMap Ev.asSavedTransaction

/-- The transaction rows `processBlock` is to hand to the store for a list of
transactions when the receipt of the transaction with hash `h` is fetched with
outcome `R h`: one row for every transaction whose receipt is fetched, none
for the others. -/
def rowsWithReceipt {ω : Type} (sys : Sys ω) (block : Block) (R : Nat → Except Err Receipt)
    (txs : List Transaction) : List TransactionRow :=
  txs.filterMap (fun tx =>
    match R tx.Hash with
    | .ok receipt => some (transactionRow (txDataOf sys tx block receipt))
    | .error _ => none)

/-- The contract-event rows to hand to the store for one log: one row for
every configured event whose signature is the log's topic 0 and for which
decoding and marshalling succeed. -/
def eventRowsFor {ω : Type} (sys : Sys ω) (contractABI : String) (block : Block) (vLog : Log)
    (events : GoMap EventConfig) : List EventRow :=
  events.filterMap (fun ev =>
    if 0 < vLog.Topics.length ∧ vLog.Topics.head?.map hashHex = some ev.2.Signature then
      match sys.UnpackIntoMap contractABI ev.1 vLog.Data with
      | .error _ => none
      | .ok unpacked =>
        match sys.jsonMarshal (eventOf block ev.1 ev.2 vLog unpacked sys.AddressHex).Data with
        | .error _ => none
        | .ok eventDataJSON =>
          some
            { tx_hash := hashHex vLog.TxHash
              log_index := vLog.Index
              contract_address := sys.AddressHex vLog.Address
              event_name := ev.1
              block_number := blockNumberU64 block
              timestamp := blockTimestamp block
              event_data := eventDataJSON }
    else none)

/-- The query text and bound arguments an event sends to the store, if it is
a query. -/
def Ev.asQuery : Ev → Option (String × List Int)
  | .query text args _ => some (text, args)
  | _ => none

/-- The queries sent to the store, in order: text and bound arguments. -/
def queriesOf (t : List Ev) : List (String × List Int) :=
  t.filterMap Ev.asQuery

/-- The events that token-transfer and contract-event processing can produce:
log lines, log-filter requests and inserts into the two log tables. -/
def Ev.belowTransaction : Ev → Bool
  | .log _ => true
  | .filterLogs _ _ => true
  | .exec (.insertTokenTransfer _) _ => true
  | .exec (.insertContractEvent _) _ => true
  | _ => false

/-- The events that processing a block can produce after its row is saved:
everything but a block request, a block insert or an aggregation query. -/
def Ev.belowBlock : Ev → Bool
  | .blockByNumber _ _ => false
  | .exec (.insertBlock _) _ => false
  | .query _ _ _ => false
  | _ => true

/-- The reading of a byte string as a big-endian unsigned integer: the first
byte is the most significant. -/
def bigEndianValue : List Byte → Nat
  | [] => 0
  | b :: t => b.val * 256 ^ t.length + bigEndianValue t

/-- The shape test of the transfer extractor as the specification words it:
topic 0 is the `Transfer` signature, there are three topics and 32 data bytes. -/
def isTransferShape (l : Log) : Bool :=
  decide (l.Topics.head? = some transferTopic ∧ l.Topics.length = 3 ∧ l.Data.length = 32)

/-! ## Concrete systems and data used in the examples -/

/-- The store with no rows. -/
def Store.empty : Store :=
  { blocks := [], transactions := [], token_transfers := [], contract_events := [] }

/-- The value of a hexadecimal digit character. -/
def hexVal (c : Char) : Nat :=
  if c.toNat < 58 then c.toNat - 48 else if c.toNat < 71 then c.toNat - 55 else c.toNat - 87

/-- A system around a node that answers from two fixed tables and a store
that answers with `exec`; addresses are rendered like hashes, ABI decoding
yields no fields and marshalling yields an empty object. -/
def tableSys {ω : Type} (blocks : Int → Except Err Block) (receipts : Nat → Except Err Receipt)
    (exec : Stmt → ω → Option Err × ω) : Sys ω :=
  { BlockByNumber := fun n w => (blocks n, w)
    TransactionReceipt := fun h w => (receipts h, w)
    FilterLogs := fun _ w => (.ok [], w)
    Exec := exec
    Query := fun _ _ w => (.ok [], w)
    Sender := fun _ => .ok 0
    AddressHex := fun a => "0x" ++ String.mk (hexDigits 40 a)
    HexToAddress := fun s => (s.toList.drop 2).foldl (fun acc c => acc * 16 + hexVal c) 0 % 2 ^ 160
    abiJSON := fun _ => none
    UnpackIntoMap := fun _ _ _ => .ok []
    jsonMarshal := fun _ => .ok "\x7b\x7d" }

/-- A store connection that is down: every statement fails. -/
def execDown : Stmt → Unit → Option Err × Unit :=
  fun _ w => (some "connection refused", w)

/-- A block with the given number, hash and transactions. -/
def blockWith (number hash : Nat) (txs : List Transaction) : Block :=
  { Number := number, Hash := hash, ParentHash := 0, Time := 1700000000, GasLimit := 30000000,
    GasUsed := 21000, Coinbase := 0, Difficulty := 0, Size := 600, Transactions := txs }

/-- A block row with the given key and hash. -/
def blockRowWith (number : Nat) (hash : String) : BlockRow :=
  { number := number, hash := hash, parent_hash := "0x00", timestamp := 1700000000,
    gas_limit := 30000000, gas_used := 21000, miner := "0x00", difficulty := "0",
    total_difficulty := "0", size_bytes := 600, tx_count := 0 }

/-- A transaction row with the given key and value. -/
def transactionRowWith (hash value : String) : TransactionRow :=
  { hash := hash, from_address := "0x01", to_address := some "0x02", value := value,
    gas_price := "1", gas_used := 21000, block_number := 5, timestamp := 1700000000,
    status := 1, input_data := "0x" }

/-- A token-transfer row with the given key and value. -/
def transferWith (txHash : String) (logIndex : Nat) (value : String) : TokenTransfer :=
  { TxHash := txHash, LogIndex := logIndex, From := "0x01", To := "0x02", Value := value,
    Token := "0x03", BlockNumber := 5, Timestamp := 1700000000 }

/-- A contract-event row with the given key and payload. -/
def eventRowWith (txHash : String) (logIndex : Nat) (data : String) : EventRow :=
  { tx_hash := txHash, log_index := logIndex, contract_address := "0x03",
    event_name := "Approval", block_number := 5, timestamp := 1700000000, event_data := data }

/-- A store that already holds one row of every kind. -/
def storeWithRows : Store :=
  { blocks := [blockRowWith 5 "0xaa"]
    transactions := [transactionRowWith "0x51" "10"]
    token_transfers := [transferWith "0x51" 0 "10"]
    contract_events := [eventRowWith "0x51" 1 "a"] }

/-- A system whose node knows no block and whose store is down. -/
def downSys : Sys Unit :=
  tableSys (fun _ => .error "not found") (fun _ => .error "not found") execDown

/-- An event configuration for the `Transfer` signature that declares no
fields. -/
def bareTransferConfig : EventConfig :=
  { Signature := hashHex transferTopic, Fields := [] }

/-- An event configuration for the `Transfer` signature with its three
declared fields. -/
def fullTransferConfig : EventConfig :=
  { Signature := hashHex transferTopic
    Fields := [("from", "address"), ("to", "address"), ("value", "uint256")] }

/-- A `Transfer` log of 100 units from address 1 to address 2, emitted by
contract 3 as log 0 of transaction `0x51`. -/
def transferLog : Log :=
  { Address := 3, Topics := [transferTopic, 1, 2], Data := List.replicate 31 0 ++ [100],
    Index := 0, TxHash := 0x51 }

/-- A contract-creation transaction: no recipient. -/
def creationTx : Transaction :=
  { Hash := 0x51, To := none, Value := 0, GasPrice := 1, Data := [], ChainId := 1 }

/-- A transaction whose receipt the node cannot find. -/
def lostTx : Transaction :=
  { Hash := 0x52, To := some 2, Value := 7, GasPrice := 1, Data := [], ChainId := 1 }

/-- A plain payment to address 2. -/
def paymentTx : Transaction :=
  { Hash := 0x53, To := some 2, Value := 9, GasPrice := 1, Data := [], ChainId := 1 }

/-- Block 0 of the example chain, with three transactions. -/
def block0 : Block :=
  blockWith 0 0xb0 [creationTx, lostTx, paymentTx]

/-- The example chain: only block 0 can be fetched. -/
def blocksTable (n : Int) : Except Err Block :=
  if n = 0 then .ok block0 else .error "not found"

/-- The receipts of the example chain: `0x51` emitted a `Transfer` log, `0x53`
no log, and every other receipt is missing. -/
def receiptsTable (h : Nat) : Except Err Receipt :=
  if h = 0x51 then .ok { TxHash := 0x51, GasUsed := 21000, Status := 1, Logs := [transferLog] }
  else if h = 0x53 then .ok { TxHash := 0x53, GasUsed := 21000, Status := 1, Logs := [] }
  else .error "not found"

/-- The refusal built into `database/sql`: its default parameter converter
rejects a `uint64` argument with the high bit set before the statement reaches
the database. -/
def driverCheck : Stmt → Option Err
  | .insertBlock r =>
    if r.number < 2 ^ 63 ∧ r.gas_limit < 2 ^ 63 ∧ r.gas_used < 2 ^ 63 ∧ r.size_bytes < 2 ^ 63
    then none else some "uint64 values with high bit set are not supported"
  | .insertTransaction r =>
    if r.gas_used < 2 ^ 63 ∧ r.block_number < 2 ^ 63 ∧ r.status < 2 ^ 63
    then none else some "uint64 values with high bit set are not supported"
  | .insertTokenTransfer r =>
    if r.BlockNumber < 2 ^ 63
    then none else some "uint64 values with high bit set are not supported"
  | .insertContractEvent r =>
    if r.block_number < 2 ^ 63
    then none else some "uint64 values with high bit set are not supported"

/-- A store that refuses exactly what the driver refuses. -/
def driverRefuses : Stmt → Store → Option Err :=
  fun st _ => driverCheck st

/-- The example chain in front of a working store. -/
def chainSys : Sys Store :=
  tableSys blocksTable receiptsTable (Store.exec driverRefuses)

/-- The example chain in front of a store whose connection is down. -/
def brokenStoreSys : Sys Unit :=
  tableSys blocksTable receiptsTable execDown

/-- A `TransactionData` value with the given key, value and gas used. -/
def txDataWith (hash value : String) (gasUsed : Nat) : TransactionData :=
  { Hash := hash, From := "0x01", To := "0x02", Value := value, GasPrice := "1",
    GasUsed := gasUsed, BlockNumber := 5, Timestamp := 1700000000, Status := 1, Input := "0x" }

/-- An `EventData` value with the given key and event name. -/
def eventWith (txHash : String) (logIndex : Nat) (name : String) : EventData :=
  { TxHash := txHash, LogIndex := logIndex, Address := "0x03", EventName := name,
    BlockNumber := 5, Timestamp := 1700000000, Data := [] }

/-! ## The range scheduler -/

theorem u64_pos : 0 < u64 := by decide

/-- With `endBlock = 2 ^ 64 - 1` the loop condition of `Start` can never become
false: the loop is still running after any number of iterations. -/
theorem StartLoop_running_of_max {ω : Type} (pb : Nat → Nat → ω → Res ω (Option Err))
    (batchSize : Nat) :
    ∀ (fuel blockNum : Nat) (w : ω), blockNum < u64 →
      (StartLoop pb (u64 - 1) batchSize fuel blockNum w).1 = none := by
  intro fuel
  induction fuel with
  | zero => intro blockNum w _; rfl
  | succ n ih =>
    intro blockNum w hb
    have hle : blockNum ≤ u64 - 1 := by omega
    unfold StartLoop
    simp only [hle, if_true]
    exact ih _ _ (Nat.mod_lt _ u64_pos)

/-- One iteration of the loop of `Start` when `blockNum + batchSize` does not
wrap: the batch is `[blockNum, min (blockNum + batchSize - 1) end]`. -/
theorem StartLoop_step {ω : Type} (pb : Nat → Nat → ω → Res ω (Option Err))
    (bcEndBlock batchSize fuel blockNum : Nat) (w : ω) (hbs : 0 < batchSize)
    (hle : blockNum ≤ bcEndBlock) (hno : bcEndBlock + batchSize < u64) :
    (StartLoop pb bcEndBlock batchSize (fuel + 1) blockNum w).1 =
        (StartLoop pb bcEndBlock batchSize fuel (blockNum + batchSize)
          (pb blockNum (min (blockNum + batchSize - 1) bcEndBlock) w).2.1).1 ∧
      batchesOf (StartLoop pb bcEndBlock batchSize (fuel + 1) blockNum w).2.2 =
        (blockNum, min (blockNum + batchSize - 1) bcEndBlock) ::
          batchesOf (StartLoop pb bcEndBlock batchSize fuel (blockNum + batchSize)
            (pb blockNum (min (blockNum + batchSize - 1) bcEndBlock) w).2.1).2.2 := by
  have h1 : (blockNum + batchSize + (u64 - 1)) % u64 = blockNum + batchSize - 1 := by
    have : blockNum + batchSize + (u64 - 1) = (blockNum + batchSize - 1) + u64 := by omega
    rw [this, Nat.add_mod_right]
    exact Nat.mod_eq_of_lt (by omega)
  have h2 : (blockNum + batchSize) % u64 = blockNum + batchSize :=
    Nat.mod_eq_of_lt (by omega)
  have h3 : (if blockNum + batchSize - 1 > bcEndBlock then bcEndBlock
      else blockNum + batchSize - 1) = min (blockNum + batchSize - 1) bcEndBlock := by
    split <;> omega
  rw [StartLoop]
  simp only [hle, if_true, h1, h2, h3]
  refine ⟨by first | rfl | trivial, ?_⟩
  cases (pb blockNum (min (blockNum + batchSize - 1) bcEndBlock) w).1 <;>
    simp [batchesOf]

/-- Without wrap-around `Start` returns `nil` after `batchCount` batches, and
the batches are the specified intervals, whatever the batches return. -/
theorem StartLoop_no_wrap {ω : Type} (pb : Nat → Nat → ω → Res ω (Option Err))
    (bcEndBlock batchSize : Nat) (hbs : 0 < batchSize) (hno : bcEndBlock + batchSize < u64) :
    ∀ (count blockNum fuel : Nat) (w : ω), blockNum ≤ bcEndBlock →
      count = batchCount blockNum bcEndBlock batchSize → count < fuel →
      (StartLoop pb bcEndBlock batchSize fuel blockNum w).1 = some none ∧
      batchesOf (StartLoop pb bcEndBlock batchSize fuel blockNum w).2.2 =
        specBatches bcEndBlock batchSize count blockNum := by
  intro count
  induction count with
  | zero => intro blockNum fuel w _ hc _; simp [batchCount] at hc
  | succ c ih =>
    intro blockNum fuel w hle hc hf
    obtain ⟨f, rfl⟩ : ∃ f, fuel = f + 1 := ⟨fuel - 1, by omega⟩
    obtain ⟨hs1, hs2⟩ := StartLoop_step pb bcEndBlock batchSize f blockNum w hbs hle hno
    rw [hs1, hs2]
    simp only [specBatches]
    by_cases hnext : blockNum + batchSize ≤ bcEndBlock
    · have hc2 : c = batchCount (blockNum + batchSize) bcEndBlock batchSize := by
        unfold batchCount at hc ⊢
        have : bcEndBlock - blockNum = (bcEndBlock - (blockNum + batchSize)) + batchSize := by
          omega
        rw [this, Nat.add_div_right _ hbs] at hc
        omega
      obtain ⟨i1, i2⟩ := ih (blockNum + batchSize) f _ hnext hc2 (by omega)
      exact ⟨i1, by rw [i2]⟩
    · have hc0 : c = 0 := by
        unfold batchCount at hc
        have : (bcEndBlock - blockNum) / batchSize = 0 :=
          Nat.div_eq_of_lt (by omega)
        omega
      subst hc0
      obtain ⟨g, rfl⟩ : ∃ g, f = g + 1 := ⟨f - 1, by omega⟩
      rw [StartLoop]
      simp [hnext, specBatches, batchesOf]

/-- The specified intervals tile `[b, end]`: laid end to end they enumerate
every block number from `b` to `end` once, in ascending order. -/
theorem specBatches_tile (bcEndBlock batchSize : Nat) (hbs : 0 < batchSize) :
    ∀ (count b : Nat), b ≤ bcEndBlock → count = batchCount b bcEndBlock batchSize →
      (specBatches bcEndBlock batchSize count b).flatMap
          (fun be => List.range' be.1 (be.2 + 1 - be.1)) =
        List.range' b (bcEndBlock + 1 - b) := by
  intro count
  induction count with
  | zero => intro b _ hc; simp [batchCount] at hc
  | succ c ih =>
    intro b hle hc
    simp only [specBatches, List.flatMap_cons]
    by_cases hnext : b + batchSize ≤ bcEndBlock
    · have hc2 : c = batchCount (b + batchSize) bcEndBlock batchSize := by
        unfold batchCount at hc ⊢
        have : bcEndBlock - b = (bcEndBlock - (b + batchSize)) + batchSize := by omega
        rw [this, Nat.add_div_right _ hbs] at hc
        omega
      rw [ih (b + batchSize) hnext hc2]
      have hm : min (b + batchSize - 1) bcEndBlock = b + batchSize - 1 := by omega
      rw [hm]
      have e1 : b + batchSize - 1 + 1 - b = batchSize := by omega
      have e2 : bcEndBlock + 1 - b = batchSize + (bcEndBlock + 1 - (b + batchSize)) := by omega
      rw [e1, e2, List.range'_append_1, Nat.add_comm]
    · have hc0 : c = 0 := by
        unfold batchCount at hc
        have : (bcEndBlock - b) / batchSize = 0 := Nat.div_eq_of_lt (by omega)
        omega
      subst hc0
      have hm : min (b + batchSize - 1) bcEndBlock = bcEndBlock := by omega
      simp [specBatches, hm]

/-- Where `endBlock + batchSize` stays below `2 ^ 64`: for `start ≤ end` and a
positive batch size, whatever each batch returns, `Start` returns `nil` after
`batchCount` batches, the batches handed to `processBatch` are the intervals
`[b, min (b + batchSize - 1) end]` for `b = start, start + batchSize, ...` in
ascending order, and laid end to end they enumerate `start, ..., end`, every
block number once. -/
theorem Start_no_wrap {ω : Type} (pb : Nat → Nat → ω → Res ω (Option Err))
    (startBlock bcEndBlock batchSize : Nat) (hbs : 0 < batchSize)
    (hle : startBlock ≤ bcEndBlock) (hno : bcEndBlock + batchSize < u64) (fuel : Nat)
    (hf : batchCount startBlock bcEndBlock batchSize < fuel) (w : ω) :
    (Start pb startBlock bcEndBlock batchSize fuel w).1 = some none ∧
      batchesOf (Start pb startBlock bcEndBlock batchSize fuel w).2.2 =
        specBatches bcEndBlock batchSize (batchCount startBlock bcEndBlock batchSize)
          startBlock ∧
      (batchesOf (Start pb startBlock bcEndBlock batchSize fuel w).2.2).flatMap
          (fun be => List.range' be.1 (be.2 + 1 - be.1)) =
        List.range' startBlock (bcEndBlock + 1 - startBlock) := by
  obtain ⟨h1, h2⟩ := StartLoop_no_wrap pb bcEndBlock batchSize hbs hno _ startBlock fuel w hle
    rfl hf
  have h3 : batchesOf (Start pb startBlock bcEndBlock batchSize fuel w).2.2 =
      specBatches bcEndBlock batchSize (batchCount startBlock bcEndBlock batchSize)
        startBlock := h2
  refine ⟨h1, h3, ?_⟩
  rw [h3]
  exact specBatches_tile bcEndBlock batchSize hbs _ startBlock hle rfl

/-- One iteration of the loop of `Start` in general: the end of the batch is
computed in `uint64` arithmetic and then capped by `endBlock`. -/
theorem StartLoop_succ_batches {ω : Type} (pb : Nat → Nat → ω → Res ω (Option Err))
    (bcEndBlock batchSize fuel blockNum : Nat) (w : ω) (hle : blockNum ≤ bcEndBlock) :
    batchesOf (StartLoop pb bcEndBlock batchSize (fuel + 1) blockNum w).2.2 =
      (blockNum,
        if (blockNum + batchSize + (u64 - 1)) % u64 > bcEndBlock then bcEndBlock
        else (blockNum + batchSize + (u64 - 1)) % u64) ::
      batchesOf (StartLoop pb bcEndBlock batchSize fuel ((blockNum + batchSize) % u64)
        (pb blockNum
          (if (blockNum + batchSize + (u64 - 1)) % u64 > bcEndBlock then bcEndBlock
            else (blockNum + batchSize + (u64 - 1)) % u64) w).2.1).2.2 := by
  rw [StartLoop]
  simp only [hle, if_true]
  cases (pb blockNum
      (if (blockNum + batchSize + (u64 - 1)) % u64 > bcEndBlock then bcEndBlock
        else (blockNum + batchSize + (u64 - 1)) % u64) w).1 <;>
    simp [batchesOf]

/-- The range `[100, 255]` with batch size 50 is scheduled as
`[100,149], [150,199], [200,249], [250,255]`, and `Start` then returns `nil`. -/
theorem Start_range_100_255 {ω : Type} (pb : Nat → Nat → ω → Res ω (Option Err)) (w : ω) :
    (Start pb 100 255 50 5 w).1 = some none ∧
      batchesOf (Start pb 100 255 50 5 w).2.2 =
        [(100, 149), (150, 199), (200, 249), (250, 255)] := by
  have h := StartLoop_no_wrap pb 255 50 (by decide) (by decide) 4 100 5 w (by decide)
    (by decide) (by decide)
  refine ⟨h.1, ?_⟩
  have e : specBatches 255 50 4 100 = [(100, 149), (150, 199), (200, 249), (250, 255)] := by
    decide
  rw [← e, ← h.2]
  rfl

/-- C1 (evaluation at the failing input): for `start = 2^64 - 2`,
`end = 2^64 - 1` and `batchSize = 5`, whatever the batches do, the first pair
`Start` hands to `processBatch` is `(2^64-2, 2)`, because
`blockNum + batchSize - 1` wraps around to 2, which is not above `end`; the
second is `(3, 7)`, because `blockNum += batchSize` wraps around to 3; and
`Start` has not returned after any number of loop iterations. The interval
`[2^64-2, 2^64-1]` of the range is never handed over, `[3, 7]` lies outside
the range, and the sequence of pairs does not end. -/
theorem C1_Start_wraps_near_max (ω : Type) (pb : Nat → Nat → ω → Res ω (Option Err))
    (w : ω) :
    (∀ fuel, (Start pb (2 ^ 64 - 2) (2 ^ 64 - 1) 5 fuel w).1 = none) ∧
      batchesOf (Start pb (2 ^ 64 - 2) (2 ^ 64 - 1) 5 2 w).2.2 =
        [(2 ^ 64 - 2, 2), (3, 7)] := by
  constructor
  · intro fuel
    exact StartLoop_running_of_max pb 5 fuel (2 ^ 64 - 2) w (by decide)
  · show batchesOf (StartLoop pb (2 ^ 64 - 1) 5 2 (2 ^ 64 - 2) w).2.2 = _
    rw [StartLoop_succ_batches pb _ _ _ _ _ (by decide)]
    have a1 : (2 ^ 64 - 2 + 5 + (u64 - 1)) % u64 = 2 := by decide
    have a2 : (2 ^ 64 - 2 + 5) % u64 = 3 := by decide
    have a3 : ¬ (2 > 2 ^ 64 - 1) := by decide
    simp only [a1, a2, a3, if_false]
    rw [StartLoop_succ_batches pb _ _ _ _ _ (by decide)]
    have b1 : (3 + 5 + (u64 - 1)) % u64 = 7 := by decide
    have b3 : ¬ (7 > 2 ^ 64 - 1) := by decide
    simp only [b1, b3, if_false]
    rfl

/-- C4 (evaluation at the failing input): for `start = 2^64 - 3`,
`end = 2^64 - 1` and `batchSize = 4`, under every assignment of success or
failure to the batches, the first two calls of `processBatch` are for
`(2^64-3, 0)`, an interval that holds no block, and for `(1, 4)`, outside the
range, and `Start` has not returned after any number of loop iterations: the
batch of the range is never attempted and `Start` never returns `nil`. -/
theorem C4_Start_never_returns_near_max (ω : Type)
    (pb : Nat → Nat → ω → Res ω (Option Err)) (w : ω) :
    (∀ fuel, (Start pb (2 ^ 64 - 3) (2 ^ 64 - 1) 4 fuel w).1 = none) ∧
      batchesOf (Start pb (2 ^ 64 - 3) (2 ^ 64 - 1) 4 2 w).2.2 =
        [(2 ^ 64 - 3, 0), (1, 4)] := by
  constructor
  · intro fuel
    exact StartLoop_running_of_max pb 4 fuel (2 ^ 64 - 3) w (by decide)
  · show batchesOf (StartLoop pb (2 ^ 64 - 1) 4 2 (2 ^ 64 - 3) w).2.2 = _
    rw [StartLoop_succ_batches pb _ _ _ _ _ (by decide)]
    have a1 : (2 ^ 64 - 3 + 4 + (u64 - 1)) % u64 = 0 := by decide
    have a2 : (2 ^ 64 - 3 + 4) % u64 = 1 := by decide
    have a3 : ¬ (0 > 2 ^ 64 - 1) := by decide
    simp only [a1, a2, a3, if_false]
    rw [StartLoop_succ_batches pb _ _ _ _ _ (by decide)]
    have b1 : (1 + 4 + (u64 - 1)) % u64 = 4 := by decide
    have b3 : ¬ (4 > 2 ^ 64 - 1) := by decide
    simp only [b1, b3, if_false]
    rfl

/-! ## The transfer extractor -/

theorem setBytes_foldl (data : List Byte) :
    ∀ acc : Nat, data.foldl (fun acc b => acc * 256 + b.val) acc =
      acc * 256 ^ data.length + bigEndianValue data := by
  induction data with
  | nil => intro acc; simp [bigEndianValue]
  | cons b t ih =>
    intro acc
    simp only [List.foldl_cons, ih, bigEndianValue, List.length_cons, pow_succ]
    ring

/-- The code's left fold over the data bytes computes the big-endian value. -/
theorem setBytes_eq_bigEndianValue (data : List Byte) : setBytes data = bigEndianValue data := by
  unfold setBytes
  rw [setBytes_foldl]
  simp

/-- The rows `processTokenTransfers` hands to the store over a list of logs
are those of the logs of transfer shape, whatever the store answers. -/
theorem processTokenTransfersLoop_transfers {ω : Type} (sys : Sys ω) (receipt : Receipt)
    (block : Block) :
    ∀ (logs : List Log) (w : ω),
      transfersOf (processTokenTransfersLoop sys receipt block logs w).2 =
        (logs.filter isTransferShape).map (transferOf sys receipt block) := by
  intro logs
  induction logs with
  | nil => intro w; rfl
  | cons l rest ih =>
    intro w
    rw [processTokenTransfersLoop]
    by_cases h1 : 0 < l.Topics.length ∧ l.Topics.head? = some transferTopic
    · by_cases h2 : l.Topics.length = 3 ∧ l.Data.length = 32
      · have hs : isTransferShape l = true := by
          simp [isTransferShape, h1.2, h2.1, h2.2]
        have ih2 := ih (saveTokenTransfer sys (transferOf sys receipt block l) w).2.1
        simp only [transfersOf] at ih2
        rw [if_pos h1, if_pos h2]
        simp only [transfersOf, List.filterMap_append, List.filter_cons, hs, if_true,
          List.map_cons, ih2]
        cases (saveTokenTransfer sys (transferOf sys receipt block l) w).1 <;>
          simp [saveTokenTransfer, Ev.asTransfer]
      · have hs : isTransferShape l = false := by
          simp only [isTransferShape, decide_eq_false_iff_not]
          tauto
        rw [if_pos h1, if_neg h2]
        simp only [List.filter_cons, hs]
        exact ih w
    · have hs : isTransferShape l = false := by
        simp only [isTransferShape, decide_eq_false_iff_not]
        intro hc
        apply h1
        refine ⟨?_, hc.1⟩
        rw [hc.2.1]
        decide
      rw [if_neg h1]
      simp only [List.filter_cons, hs]
      exact ih w

/-- C2: for every receipt, the token-transfer rows `processTokenTransfers`
hands to the store are, in log order, one row for each log whose topic 0 is
the `Transfer` signature and that has exactly 3 topics and exactly 32 data
bytes, and no row for any other log; each row carries its log's index and its
`Value` is the decimal numeral of the data read as a big-endian unsigned
integer; the data `00..0064` gives `"100"`. -/
theorem C2_processTokenTransfers_rows (ω : Type) (sys : Sys ω) (receipt : Receipt)
    (block : Block) (w : ω) :
    transfersOf (processTokenTransfers sys receipt block w).2.2 =
        (receipt.Logs.filter isTransferShape).map (transferOf sys receipt block) ∧
      (processTokenTransfers sys receipt block w).1 = none ∧
      (∀ l : Log, (transferOf sys receipt block l).LogIndex = l.Index ∧
        (transferOf sys receipt block l).Value = Nat.repr (bigEndianValue l.Data)) ∧
      Nat.repr (bigEndianValue (List.replicate 31 0 ++ [100])) = "100" := by
  refine ⟨processTokenTransfersLoop_transfers sys receipt block receipt.Logs w, rfl, ?_, ?_⟩
  · intro l
    refine ⟨rfl, ?_⟩
    show bigString (setBytes l.Data) = _
    rw [setBytes_eq_bigEndianValue]
    rfl
  · decide

/-! ## The persister -/

/-- Appending a row with a key no stored row has makes it the only row with
that key. -/
theorem filter_key_append_new {α κ : Type} [DecidableEq κ] (key : α → κ) (l : List α) (r : α)
    (hnew : ¬ ∃ x ∈ l, key x = key r) :
    (l ++ [r]).filter (fun x => key x = key r) = [r] ∧
      l.filter (fun x => key x = key r) = [] := by
  have h0 : l.filter (fun x => key x = key r) = [] := by
    rw [List.filter_eq_nil_iff]
    intro x hx hk
    exact hnew ⟨x, hx, by simpa using hk⟩
  refine ⟨?_, h0⟩
  rw [List.filter_append, h0]
  simp

/-- Under a uniqueness constraint a stored key selects exactly one row. -/
theorem filter_key_length {α κ : Type} [DecidableEq κ] (key : α → κ) (k : κ) :
    ∀ l : List α, (l.map key).Nodup → (∃ x ∈ l, key x = k) →
      (l.filter (fun x => key x = k)).length = 1 := by
  intro l
  induction l with
  | nil => intro _ h; obtain ⟨x, hx, _⟩ := h; cases hx
  | cons a t ih =>
    intro hnd hex
    rw [List.map_cons, List.nodup_cons] at hnd
    by_cases hk : key a = k
    · have ht : t.filter (fun x => key x = k) = [] := by
        rw [List.filter_eq_nil_iff]
        intro x hx hkx
        apply hnd.1
        rw [hk]
        exact List.mem_map.2 ⟨x, hx, by simpa using hkx⟩
      simp [List.filter_cons, hk, ht]
    · obtain ⟨x, hx, hkx⟩ := hex
      have hxt : x ∈ t := by
        rcases List.mem_cons.1 hx with h | h
        · exact absurd (h ▸ hkx) hk
        · exact h
      simp only [List.filter_cons, hk, decide_False, Bool.false_eq_true, if_false]
      exact ih hnd.2 ⟨x, hxt, hkx⟩

/-- A key that selects a row is not absent. -/
theorem filter_key_ne_nil {α κ : Type} [DecidableEq κ] (key : α → κ) (k : κ) (l : List α)
    (hex : ∃ x ∈ l, key x = k) : l.filter (fun x => key x = k) ≠ [] := by
  obtain ⟨x, hx, hkx⟩ := hex
  intro h
  rw [List.filter_eq_nil_iff] at h
  exact h x hx (by simpa using hkx)

theorem Store.insert_block_present (s : Store) (r : BlockRow)
    (h1 : ∃ x ∈ s.blocks, x.number = r.number) :
    Store.insert (.insertBlock r) s = (none, s) := by
  rw [Store.insert, if_pos h1]

theorem Store.insert_block_clash (s : Store) (r : BlockRow)
    (h1 : ¬ ∃ x ∈ s.blocks, x.number = r.number) (h2 : ∃ x ∈ s.blocks, x.hash = r.hash) :
    Store.insert (.insertBlock r) s =
      (some "duplicate key value violates unique constraint", s) := by
  rw [Store.insert, if_neg h1, if_pos h2]

theorem Store.insert_block_new (s : Store) (r : BlockRow)
    (h1 : ¬ ∃ x ∈ s.blocks, x.number = r.number) (h2 : ¬ ∃ x ∈ s.blocks, x.hash = r.hash) :
    Store.insert (.insertBlock r) s = (none, { s with blocks := s.blocks ++ [r] }) := by
  rw [Store.insert, if_neg h1, if_neg h2]

theorem Store.insert_transaction_present (s : Store) (r : TransactionRow)
    (h1 : ∃ x ∈ s.transactions, x.hash = r.hash) :
    Store.insert (.insertTransaction r) s = (none, s) := by
  rw [Store.insert, if_pos h1]

theorem Store.insert_transaction_new (s : Store) (r : TransactionRow)
    (h1 : ¬ ∃ x ∈ s.transactions, x.hash = r.hash) :
    Store.insert (.insertTransaction r) s =
      (none, { s with transactions := s.transactions ++ [r] }) := by
  rw [Store.insert, if_neg h1]

theorem Store.insert_transfer_present (s : Store) (r : TokenTransfer)
    (h1 : ∃ x ∈ s.token_transfers, x.key = r.key) :
    Store.insert (.insertTokenTransfer r) s = (none, s) := by
  rw [Store.insert, if_pos h1]

theorem Store.insert_transfer_new (s : Store) (r : TokenTransfer)
    (h1 : ¬ ∃ x ∈ s.token_transfers, x.key = r.key) :
    Store.insert (.insertTokenTransfer r) s =
      (none, { s with token_transfers := s.token_transfers ++ [r] }) := by
  rw [Store.insert, if_neg h1]

theorem Store.insert_event_present (s : Store) (r : EventRow)
    (h1 : ∃ x ∈ s.contract_events, x.key = r.key) :
    Store.insert (.insertContractEvent r) s = (none, s) := by
  rw [Store.insert, if_pos h1]

theorem Store.insert_event_new (s : Store) (r : EventRow)
    (h1 : ¬ ∃ x ∈ s.contract_events, x.key = r.key) :
    Store.insert (.insertContractEvent r) s =
      (none, { s with contract_events := s.contract_events ++ [r] }) := by
  rw [Store.insert, if_neg h1]

/-- Executing a statement a second time changes nothing and gives the same
answer: saving twice equals saving once. -/
theorem Store.insert_idem (st : Stmt) (s : Store) :
    Store.insert st (Store.insert st s).2 = Store.insert st s := by
  cases st with
  | insertBlock r =>
    by_cases h1 : ∃ x ∈ s.blocks, x.number = r.number
    · rw [Store.insert_block_present s r h1, Store.insert_block_present s r h1]
    · by_cases h2 : ∃ x ∈ s.blocks, x.hash = r.hash
      · rw [Store.insert_block_clash s r h1 h2, Store.insert_block_clash s r h1 h2]
      · rw [Store.insert_block_new s r h1 h2]
        exact Store.insert_block_present _ r ⟨r, by simp, rfl⟩
  | insertTransaction r =>
    by_cases h1 : ∃ x ∈ s.transactions, x.hash = r.hash
    · rw [Store.insert_transaction_present s r h1, Store.insert_transaction_present s r h1]
    · rw [Store.insert_transaction_new s r h1]
      exact Store.insert_transaction_present _ r ⟨r, by simp, rfl⟩
  | insertTokenTransfer r =>
    by_cases h1 : ∃ x ∈ s.token_transfers, x.key = r.key
    · rw [Store.insert_transfer_present s r h1, Store.insert_transfer_present s r h1]
    · rw [Store.insert_transfer_new s r h1]
      exact Store.insert_transfer_present _ r ⟨r, by simp, rfl⟩
  | insertContractEvent r =>
    by_cases h1 : ∃ x ∈ s.contract_events, x.key = r.key
    · rw [Store.insert_event_present s r h1, Store.insert_event_present s r h1]
    · rw [Store.insert_event_new s r h1]
      exact Store.insert_event_present _ r ⟨r, by simp, rfl⟩

/-- Two saves of block rows with one key, the first without error. -/
theorem Store.block_twice (s : Store) (hwf : s.WF) (r1 r2 : BlockRow)
    (hk : r1.number = r2.number) (h1 : (Store.insert (.insertBlock r1) s).1 = none) :
    Store.insert (.insertBlock r2) (Store.insert (.insertBlock r1) s).2 =
        (none, (Store.insert (.insertBlock r1) s).2) ∧
      ((Store.insert (.insertBlock r1) s).2.blockAt r1.number).length = 1 ∧
      (Store.insert (.insertBlock r1) s).2.blockAt r1.number =
        (if s.blockAt r1.number = [] then [r1] else s.blockAt r1.number) := by
  by_cases hp : ∃ x ∈ s.blocks, x.number = r1.number
  · rw [Store.insert_block_present s r1 hp]
    refine ⟨Store.insert_block_present s r2 (hk ▸ hp), ?_, ?_⟩
    · exact filter_key_length (fun x : BlockRow => x.number) r1.number s.blocks hwf.1 hp
    · rw [if_neg]
      exact filter_key_ne_nil (fun x : BlockRow => x.number) r1.number s.blocks hp
  · by_cases hc : ∃ x ∈ s.blocks, x.hash = r1.hash
    · rw [Store.insert_block_clash s r1 hp hc] at h1
      cases h1
    · rw [Store.insert_block_new s r1 hp hc]
      obtain ⟨f1, f2⟩ := filter_key_append_new (fun x : BlockRow => x.number) s.blocks r1 hp
      refine ⟨Store.insert_block_present _ r2 ⟨r1, by simp, hk⟩, ?_, ?_⟩
      · show ((s.blocks ++ [r1]).filter _).length = 1
        rw [f1]
        rfl
      · show (s.blocks ++ [r1]).filter _ = _
        rw [f1, if_pos]
        exact f2

/-- Two saves of transaction rows with one key. -/
theorem Store.transaction_twice (s : Store) (hwf : s.WF) (r1 r2 : TransactionRow)
    (hk : r1.hash = r2.hash) :
    (Store.insert (.insertTransaction r1) s).1 = none ∧
      Store.insert (.insertTransaction r2) (Store.insert (.insertTransaction r1) s).2 =
        (none, (Store.insert (.insertTransaction r1) s).2) ∧
      ((Store.insert (.insertTransaction r1) s).2.transactionAt r1.hash).length = 1 ∧
      (Store.insert (.insertTransaction r1) s).2.transactionAt r1.hash =
        (if s.transactionAt r1.hash = [] then [r1] else s.transactionAt r1.hash) := by
  by_cases hp : ∃ x ∈ s.transactions, x.hash = r1.hash
  · rw [Store.insert_transaction_present s r1 hp]
    refine ⟨rfl, Store.insert_transaction_present s r2 (hk ▸ hp), ?_, ?_⟩
    · exact filter_key_length (fun x : TransactionRow => x.hash) r1.hash s.transactions
        hwf.2.2.1 hp
    · rw [if_neg]
      exact filter_key_ne_nil (fun x : TransactionRow => x.hash) r1.hash s.transactions hp
  · rw [Store.insert_transaction_new s r1 hp]
    obtain ⟨f1, f2⟩ :=
      filter_key_append_new (fun x : TransactionRow => x.hash) s.transactions r1 hp
    refine ⟨rfl, Store.insert_transaction_present _ r2 ⟨r1, by simp, hk⟩, ?_, ?_⟩
    · show ((s.transactions ++ [r1]).filter _).length = 1
      rw [f1]
      rfl
    · show (s.transactions ++ [r1]).filter _ = _
      rw [f1, if_pos]
      exact f2

/-- Two saves of token-transfer rows with one key. -/
theorem Store.transfer_twice (s : Store) (hwf : s.WF) (r1 r2 : TokenTransfer)
    (hk : r1.key = r2.key) :
    (Store.insert (.insertTokenTransfer r1) s).1 = none ∧
      Store.insert (.insertTokenTransfer r2) (Store.insert (.insertTokenTransfer r1) s).2 =
        (none, (Store.insert (.insertTokenTransfer r1) s).2) ∧
      ((Store.insert (.insertTokenTransfer r1) s).2.transferAt r1.key).length = 1 ∧
      (Store.insert (.insertTokenTransfer r1) s).2.transferAt r1.key =
        (if s.transferAt r1.key = [] then [r1] else s.transferAt r1.key) := by
  by_cases hp : ∃ x ∈ s.token_transfers, x.key = r1.key
  · rw [Store.insert_transfer_present s r1 hp]
    refine ⟨rfl, Store.insert_transfer_present s r2 (hk ▸ hp), ?_, ?_⟩
    · exact filter_key_length TokenTransfer.key r1.key s.token_transfers hwf.2.2.2.1 hp
    · rw [if_neg]
      exact filter_key_ne_nil TokenTransfer.key r1.key s.token_transfers hp
  · rw [Store.insert_transfer_new s r1 hp]
    obtain ⟨f1, f2⟩ := filter_key_append_new TokenTransfer.key s.token_transfers r1 hp
    refine ⟨rfl, Store.insert_transfer_present _ r2 ⟨r1, by simp, hk⟩, ?_, ?_⟩
    · show ((s.token_transfers ++ [r1]).filter _).length = 1
      rw [f1]
      rfl
    · show (s.token_transfers ++ [r1]).filter _ = _
      rw [f1, if_pos]
      exact f2

/-- Two saves of contract-event rows with one key. -/
theorem Store.event_twice (s : Store) (hwf : s.WF) (r1 r2 : EventRow)
    (hk : r1.key = r2.key) :
    (Store.insert (.insertContractEvent r1) s).1 = none ∧
      Store.insert (.insertContractEvent r2) (Store.insert (.insertContractEvent r1) s).2 =
        (none, (Store.insert (.insertContractEvent r1) s).2) ∧
      ((Store.insert (.insertContractEvent r1) s).2.eventAt r1.key).length = 1 ∧
      (Store.insert (.insertContractEvent r1) s).2.eventAt r1.key =
        (if s.eventAt r1.key = [] then [r1] else s.eventAt r1.key) := by
  by_cases hp : ∃ x ∈ s.contract_events, x.key = r1.key
  · rw [Store.insert_event_present s r1 hp]
    refine ⟨rfl, Store.insert_event_present s r2 (hk ▸ hp), ?_, ?_⟩
    · exact filter_key_length EventRow.key r1.key s.contract_events hwf.2.2.2.2 hp
    · rw [if_neg]
      exact filter_key_ne_nil EventRow.key r1.key s.contract_events hp
  · rw [Store.insert_event_new s r1 hp]
    obtain ⟨f1, f2⟩ := filter_key_append_new EventRow.key s.contract_events r1 hp
    refine ⟨rfl, Store.insert_event_present _ r2 ⟨r1, by simp, hk⟩, ?_, ?_⟩
    · show ((s.contract_events ++ [r1]).filter _).length = 1
      rw [f1]
      rfl
    · show (s.contract_events ++ [r1]).filter _ = _
      rw [f1, if_pos]
      exact f2

/-- Appending a row with a new key keeps the keys distinct. -/
theorem nodup_map_append_new {α κ : Type} (key : α → κ) (l : List α) (r : α)
    (hnd : (l.map key).Nodup) (hnew : ¬ ∃ x ∈ l, key x = key r) :
    ((l ++ [r]).map key).Nodup := by
  rw [List.map_append, List.nodup_append]
  refine ⟨hnd, by simp, ?_⟩
  intro k hk1 hk2
  simp only [List.map_cons, List.map_nil, List.mem_singleton] at hk2
  obtain ⟨x, hx, hxk⟩ := List.mem_map.1 hk1
  exact hnew ⟨x, hx, hxk.trans hk2⟩

/-- The store keeps the uniqueness constraints of the schema under every
statement, so every store reached from the empty one satisfies them. -/
theorem Store.insert_WF (st : Stmt) (s : Store) (hwf : s.WF) : (Store.insert st s).2.WF := by
  obtain ⟨w1, w2, w3, w4, w5⟩ := hwf
  cases st with
  | insertBlock r =>
    by_cases h1 : ∃ x ∈ s.blocks, x.number = r.number
    · rw [Store.insert_block_present s r h1]; exact ⟨w1, w2, w3, w4, w5⟩
    · by_cases h2 : ∃ x ∈ s.blocks, x.hash = r.hash
      · rw [Store.insert_block_clash s r h1 h2]; exact ⟨w1, w2, w3, w4, w5⟩
      · rw [Store.insert_block_new s r h1 h2]
        exact ⟨nodup_map_append_new _ _ _ w1 h1, nodup_map_append_new _ _ _ w2 h2, w3, w4, w5⟩
  | insertTransaction r =>
    by_cases h1 : ∃ x ∈ s.transactions, x.hash = r.hash
    · rw [Store.insert_transaction_present s r h1]; exact ⟨w1, w2, w3, w4, w5⟩
    · rw [Store.insert_transaction_new s r h1]
      exact ⟨w1, w2, nodup_map_append_new _ _ _ w3 h1, w4, w5⟩
  | insertTokenTransfer r =>
    by_cases h1 : ∃ x ∈ s.token_transfers, x.key = r.key
    · rw [Store.insert_transfer_present s r h1]; exact ⟨w1, w2, w3, w4, w5⟩
    · rw [Store.insert_transfer_new s r h1]
      exact ⟨w1, w2, w3, nodup_map_append_new _ _ _ w4 h1, w5⟩
  | insertContractEvent r =>
    by_cases h1 : ∃ x ∈ s.contract_events, x.key = r.key
    · rw [Store.insert_event_present s r h1]; exact ⟨w1, w2, w3, w4, w5⟩
    · rw [Store.insert_event_new s r h1]
      exact ⟨w1, w2, w3, w4, nodup_map_append_new _ _ _ w5 h1⟩

theorem storeWithRows_WF : storeWithRows.WF := by
  unfold Store.WF
  decide

/-- A statement that fails, whether refused or in conflict with the unique
hash of another block, stores nothing. -/
theorem Store.insert_error_unchanged (st : Stmt) (s : Store)
    (h : (Store.insert st s).1 ≠ none) : (Store.insert st s).2 = s := by
  cases st with
  | insertBlock r =>
    by_cases h1 : ∃ x ∈ s.blocks, x.number = r.number
    · rw [Store.insert_block_present s r h1]
    · by_cases h2 : ∃ x ∈ s.blocks, x.hash = r.hash
      · rw [Store.insert_block_clash s r h1 h2]
      · rw [Store.insert_block_new s r h1 h2] at h
        exact absurd rfl h
  | insertTransaction r =>
    by_cases h1 : ∃ x ∈ s.transactions, x.hash = r.hash
    · rw [Store.insert_transaction_present s r h1]
    · rw [Store.insert_transaction_new s r h1] at h
      exact absurd rfl h
  | insertTokenTransfer r =>
    by_cases h1 : ∃ x ∈ s.token_transfers, x.key = r.key
    · rw [Store.insert_transfer_present s r h1]
    · rw [Store.insert_transfer_new s r h1] at h
      exact absurd rfl h
  | insertContractEvent r =>
    by_cases h1 : ∃ x ∈ s.contract_events, x.key = r.key
    · rw [Store.insert_event_present s r h1]
    · rw [Store.insert_event_new s r h1] at h
      exact absurd rfl h

theorem Store.exec_refused (refuses : Stmt → Store → Option Err) (st : Stmt) (s : Store)
    (e : Err) (h : refuses st s = some e) : Store.exec refuses st s = (some e, s) := by
  simp [Store.exec, h]

theorem Store.exec_admitted (refuses : Stmt → Store → Option Err) (st : Stmt) (s : Store)
    (h : refuses st s = none) : Store.exec refuses st s = Store.insert st s := by
  simp [Store.exec, h]

/-- A statement that reported no error was admitted and inserted if absent. -/
theorem Store.exec_first_ok (refuses : Stmt → Store → Option Err) (st : Stmt) (s : Store)
    (h : (Store.exec refuses st s).1 = none) :
    refuses st s = none ∧ Store.exec refuses st s = Store.insert st s ∧
      (Store.insert st s).1 = none := by
  cases hr : refuses st s with
  | some e =>
    rw [Store.exec_refused refuses st s e hr] at h
    cases h
  | none =>
    rw [Store.exec_admitted refuses st s hr] at h
    exact ⟨rfl, Store.exec_admitted refuses st s hr, h⟩

/-- A statement whose key is already stored changes nothing, and the only
error it can report is its refusal. -/
theorem Store.exec_second (refuses : Stmt → Store → Option Err) (st : Stmt) (s : Store)
    (h : Store.insert st s = (none, s)) :
    (Store.exec refuses st s).2 = s ∧ (Store.exec refuses st s).1 = refuses st s := by
  cases hr : refuses st s with
  | some e =>
    rw [Store.exec_refused refuses st s e hr]
    exact ⟨rfl, rfl⟩
  | none =>
    rw [Store.exec_admitted refuses st s hr, h]
    exact ⟨rfl, rfl⟩

/-- A statement that reports an error stores nothing. -/
theorem Store.exec_error_unchanged (refuses : Stmt → Store → Option Err) (st : Stmt)
    (s : Store) (h : (Store.exec refuses st s).1 ≠ none) : (Store.exec refuses st s).2 = s := by
  cases hr : refuses st s with
  | some e => rw [Store.exec_refused refuses st s e hr]
  | none =>
    rw [Store.exec_admitted refuses st s hr] at h ⊢
    exact Store.insert_error_unchanged st s h

/-- Executing a statement a second time leaves the store as the first
execution left it. -/
theorem Store.exec_idem_store (refuses : Stmt → Store → Option Err) (st : Stmt) (s : Store) :
    (Store.exec refuses st (Store.exec refuses st s).2).2 = (Store.exec refuses st s).2 := by
  cases hr : refuses st s with
  | some e =>
    rw [Store.exec_refused refuses st s e hr]
    show (Store.exec refuses st s).2 = s
    rw [Store.exec_refused refuses st s e hr]
  | none =>
    rw [Store.exec_admitted refuses st s hr]
    cases hr2 : refuses st (Store.insert st s).2 with
    | some e => rw [Store.exec_refused refuses st _ e hr2]
    | none => rw [Store.exec_admitted refuses st _ hr2, Store.insert_idem]

/-- The store keeps the uniqueness constraints of the schema whatever it
refuses. -/
theorem Store.exec_WF (refuses : Stmt → Store → Option Err) (st : Stmt) (s : Store)
    (hwf : s.WF) : (Store.exec refuses st s).2.WF := by
  cases hr : refuses st s with
  | some e => rw [Store.exec_refused refuses st s e hr]; exact hwf
  | none => rw [Store.exec_admitted refuses st s hr]; exact Store.insert_WF st s hwf

theorem Store.exec_block_twice (refuses : Stmt → Store → Option Err) (s : Store) (hwf : s.WF)
    (r1 r2 : BlockRow) (hk : r1.number = r2.number)
    (h1 : (Store.exec refuses (.insertBlock r1) s).1 = none) :
    (Store.exec refuses (.insertBlock r2) (Store.exec refuses (.insertBlock r1) s).2).2 =
        (Store.exec refuses (.insertBlock r1) s).2 ∧
      (Store.exec refuses (.insertBlock r2) (Store.exec refuses (.insertBlock r1) s).2).1 =
        refuses (.insertBlock r2) (Store.exec refuses (.insertBlock r1) s).2 ∧
      ((Store.exec refuses (.insertBlock r1) s).2.blockAt r1.number).length = 1 ∧
      (Store.exec refuses (.insertBlock r1) s).2.blockAt r1.number =
        (if s.blockAt r1.number = [] then [r1] else s.blockAt r1.number) := by
  obtain ⟨_, hx, hi⟩ := Store.exec_first_ok refuses _ s h1
  rw [hx]
  obtain ⟨a, b, c⟩ := Store.block_twice s hwf r1 r2 hk hi
  exact ⟨(Store.exec_second refuses _ _ a).1, (Store.exec_second refuses _ _ a).2, b, c⟩

theorem Store.exec_transaction_twice (refuses : Stmt → Store → Option Err) (s : Store)
    (hwf : s.WF) (r1 r2 : TransactionRow) (hk : r1.hash = r2.hash)
    (h1 : (Store.exec refuses (.insertTransaction r1) s).1 = none) :
    (Store.exec refuses (.insertTransaction r2)
        (Store.exec refuses (.insertTransaction r1) s).2).2 =
        (Store.exec refuses (.insertTransaction r1) s).2 ∧
      (Store.exec refuses (.insertTransaction r2)
        (Store.exec refuses (.insertTransaction r1) s).2).1 =
        refuses (.insertTransaction r2) (Store.exec refuses (.insertTransaction r1) s).2 ∧
      ((Store.exec refuses (.insertTransaction r1) s).2.transactionAt r1.hash).length = 1 ∧
      (Store.exec refuses (.insertTransaction r1) s).2.transactionAt r1.hash =
        (if s.transactionAt r1.hash = [] then [r1] else s.transactionAt r1.hash) := by
  obtain ⟨_, hx, _⟩ := Store.exec_first_ok refuses _ s h1
  rw [hx]
  obtain ⟨_, a, b, c⟩ := Store.transaction_twice s hwf r1 r2 hk
  exact ⟨(Store.exec_second refuses _ _ a).1, (Store.exec_second refuses _ _ a).2, b, c⟩

theorem Store.exec_transfer_twice (refuses : Stmt → Store → Option Err) (s : Store)
    (hwf : s.WF) (r1 r2 : TokenTransfer) (hk : r1.key = r2.key)
    (h1 : (Store.exec refuses (.insertTokenTransfer r1) s).1 = none) :
    (Store.exec refuses (.insertTokenTransfer r2)
        (Store.exec refuses (.insertTokenTransfer r1) s).2).2 =
        (Store.exec refuses (.insertTokenTransfer r1) s).2 ∧
      (Store.exec refuses (.insertTokenTransfer r2)
        (Store.exec refuses (.insertTokenTransfer r1) s).2).1 =
        refuses (.insertTokenTransfer r2) (Store.exec refuses (.insertTokenTransfer r1) s).2 ∧
      ((Store.exec refuses (.insertTokenTransfer r1) s).2.transferAt r1.key).length = 1 ∧
      (Store.exec refuses (.insertTokenTransfer r1) s).2.transferAt r1.key =
        (if s.transferAt r1.key = [] then [r1] else s.transferAt r1.key) := by
  obtain ⟨_, hx, _⟩ := Store.exec_first_ok refuses _ s h1
  rw [hx]
  obtain ⟨_, a, b, c⟩ := Store.transfer_twice s hwf r1 r2 hk
  exact ⟨(Store.exec_second refuses _ _ a).1, (Store.exec_second refuses _ _ a).2, b, c⟩

theorem Store.exec_event_twice (refuses : Stmt → Store → Option Err) (s : Store)
    (hwf : s.WF) (r1 r2 : EventRow) (hk : r1.key = r2.key)
    (h1 : (Store.exec refuses (.insertContractEvent r1) s).1 = none) :
    (Store.exec refuses (.insertContractEvent r2)
        (Store.exec refuses (.insertContractEvent r1) s).2).2 =
        (Store.exec refuses (.insertContractEvent r1) s).2 ∧
      (Store.exec refuses (.insertContractEvent r2)
        (Store.exec refuses (.insertContractEvent r1) s).2).1 =
        refuses (.insertContractEvent r2) (Store.exec refuses (.insertContractEvent r1) s).2 ∧
      ((Store.exec refuses (.insertContractEvent r1) s).2.eventAt r1.key).length = 1 ∧
      (Store.exec refuses (.insertContractEvent r1) s).2.eventAt r1.key =
        (if s.eventAt r1.key = [] then [r1] else s.eventAt r1.key) := by
  obtain ⟨_, hx, _⟩ := Store.exec_first_ok refuses _ s h1
  rw [hx]
  obtain ⟨_, a, b, c⟩ := Store.event_twice s hwf r1 r2 hk
  exact ⟨(Store.exec_second refuses _ _ a).1, (Store.exec_second refuses _ _ a).2, b, c⟩

theorem saveContractEvent_marshalled {ω : Type} (sys : Sys ω) (event : EventData) (w : ω)
    (js : String) (hm : sys.jsonMarshal event.Data = .ok js) :
    saveContractEvent sys event w =
      ((sys.Exec (.insertContractEvent (eventRowOf event js)) w).1,
        (sys.Exec (.insertContractEvent (eventRowOf event js)) w).2,
        [Ev.exec (.insertContractEvent (eventRowOf event js))
          (sys.Exec (.insertContractEvent (eventRowOf event js)) w).1.isNone]) := by
  simp [saveContractEvent, hm, eventRowOf]

theorem saveContractEvent_marshal_error {ω : Type} (sys : Sys ω) (event : EventData) (w : ω)
    (e : Err) (hm : sys.jsonMarshal event.Data = .error e) :
    saveContractEvent sys event w = (some e, w, []) := by
  simp [saveContractEvent, hm]

/-- Two saves of contract events with one key through `saveContractEvent`. -/
theorem saveContractEvent_twice (refuses : Stmt → Store → Option Err) (sys : Sys Store)
    (hsys : sys.Exec = Store.exec refuses) (s : Store) (hwf : s.WF) (e1 e2 : EventData)
    (he : e1.TxHash = e2.TxHash ∧ e1.LogIndex = e2.LogIndex)
    (h1 : (saveContractEvent sys e1 s).1 = none) :
    (saveContractEvent sys e2 (saveContractEvent sys e1 s).2.1).2.1 =
        (saveContractEvent sys e1 s).2.1 ∧
      ((saveContractEvent sys e1 s).2.1.eventAt (e1.TxHash, e1.LogIndex)).length = 1 ∧
      (∃ js, sys.jsonMarshal e1.Data = .ok js ∧
        (saveContractEvent sys e1 s).2.1.eventAt (e1.TxHash, e1.LogIndex) =
          (if s.eventAt (e1.TxHash, e1.LogIndex) = [] then [eventRowOf e1 js]
            else s.eventAt (e1.TxHash, e1.LogIndex))) ∧
      (∀ js2, sys.jsonMarshal e2.Data = .ok js2 →
        (saveContractEvent sys e2 (saveContractEvent sys e1 s).2.1).1 =
          refuses (.insertContractEvent (eventRowOf e2 js2))
            (saveContractEvent sys e1 s).2.1) := by
  cases hm1 : sys.jsonMarshal e1.Data with
  | error e =>
    rw [saveContractEvent_marshal_error sys e1 s e hm1] at h1
    cases h1
  | ok js =>
    rw [saveContractEvent_marshalled sys e1 s js hm1] at h1 ⊢
    rw [hsys] at h1 ⊢
    have hk : (eventRowOf e1 js).key = (e1.TxHash, e1.LogIndex) := rfl
    have key2 : ∀ js2, (eventRowOf e1 js).key = (eventRowOf e2 js2).key := by
      intro js2
      show (e1.TxHash, e1.LogIndex) = (e2.TxHash, e2.LogIndex)
      rw [he.1, he.2]
    refine ⟨?_, ?_, ⟨js, rfl, ?_⟩, ?_⟩
    · cases hm2 : sys.jsonMarshal e2.Data with
      | error e => rw [saveContractEvent_marshal_error sys e2 _ e hm2]
      | ok js2 =>
        rw [saveContractEvent_marshalled sys e2 _ js2 hm2, hsys]
        exact (Store.exec_event_twice refuses s hwf _ _ (key2 js2) h1).1
    · have := (Store.exec_event_twice refuses s hwf _ _ (key2 "") h1).2.2.1
      rw [hk] at this
      exact this
    · have := (Store.exec_event_twice refuses s hwf _ _ (key2 "") h1).2.2.2
      rw [hk] at this
      exact this
    · intro js2 hm2
      rw [saveContractEvent_marshalled sys e2 _ js2 hm2, hsys]
      exact (Store.exec_event_twice refuses s hwf _ _ (key2 js2) h1).2.1

/-- A save of a contract event that reports an error stores nothing, and a
second save of the same event leaves the store as the first left it. -/
theorem saveContractEvent_error_and_idem (refuses : Stmt → Store → Option Err)
    (sys : Sys Store) (hsys : sys.Exec = Store.exec refuses) (s : Store) (e1 : EventData) :
    ((saveContractEvent sys e1 s).1 ≠ none → (saveContractEvent sys e1 s).2.1 = s) ∧
      (saveContractEvent sys e1 (saveContractEvent sys e1 s).2.1).2.1 =
        (saveContractEvent sys e1 s).2.1 := by
  cases hm1 : sys.jsonMarshal e1.Data with
  | error e =>
    rw [saveContractEvent_marshal_error sys e1 s e hm1]
    exact ⟨fun _ => rfl, by rw [saveContractEvent_marshal_error sys e1 s e hm1]⟩
  | ok js =>
    rw [saveContractEvent_marshalled sys e1 s js hm1, hsys]
    refine ⟨fun h => Store.exec_error_unchanged refuses _ s h, ?_⟩
    rw [saveContractEvent_marshalled sys e1 _ js hm1, hsys]
    exact Store.exec_idem_store refuses _ s

/-- C3 (as amended): the store is reached through `db.Exec`, which answers as
`Store.exec` does for some rule `refuses` of refusal, and holds at most one
row per key. For each entity kind and two rows with the same key (same or
different content): once `saveBlock`, `saveTransaction`, `saveTokenTransfer`
or `saveContractEvent` has reported no error for the first, the save of the
second leaves the store as it is and reports no error for the duplicate key
(the only error it reports is a refusal of its own statement, or for a
contract event a marshalling error); exactly one stored row has that key; and
its content is that of the first write when the key was not stored before and
the content stored before otherwise. A save that reports an error stores
nothing, and saving the same row twice leaves the same store as saving it
once. -/
theorem C3_save_twice (refuses : Stmt → Store → Option Err) (sys : Sys Store)
    (hsys : sys.Exec = Store.exec refuses) (s : Store) (hwf : s.WF)
    (b1 b2 : Block) (t1 t2 : TransactionData) (x1 x2 : TokenTransfer) (e1 e2 : EventData)
    (hb : blockNumberU64 b1 = blockNumberU64 b2) (ht : t1.Hash = t2.Hash)
    (hx : x1.TxHash = x2.TxHash ∧ x1.LogIndex = x2.LogIndex)
    (he : e1.TxHash = e2.TxHash ∧ e1.LogIndex = e2.LogIndex) :
    ((saveBlock sys b1 s).1 = none →
      (saveBlock sys b2 (saveBlock sys b1 s).2.1).2.1 = (saveBlock sys b1 s).2.1 ∧
      (saveBlock sys b2 (saveBlock sys b1 s).2.1).1 =
        refuses (.insertBlock (blockRow sys b2)) (saveBlock sys b1 s).2.1 ∧
      ((saveBlock sys b1 s).2.1.blockAt (blockNumberU64 b1)).length = 1 ∧
      (saveBlock sys b1 s).2.1.blockAt (blockNumberU64 b1) =
        (if s.blockAt (blockNumberU64 b1) = [] then [blockRow sys b1]
          else s.blockAt (blockNumberU64 b1))) ∧
    ((saveTransaction sys t1 s).1 = none →
      (saveTransaction sys t2 (saveTransaction sys t1 s).2.1).2.1 =
        (saveTransaction sys t1 s).2.1 ∧
      (saveTransaction sys t2 (saveTransaction sys t1 s).2.1).1 =
        refuses (.insertTransaction (transactionRow t2)) (saveTransaction sys t1 s).2.1 ∧
      ((saveTransaction sys t1 s).2.1.transactionAt t1.Hash).length = 1 ∧
      (saveTransaction sys t1 s).2.1.transactionAt t1.Hash =
        (if s.transactionAt t1.Hash = [] then [transactionRow t1]
          else s.transactionAt t1.Hash)) ∧
    ((saveTokenTransfer sys x1 s).1 = none →
      (saveTokenTransfer sys x2 (saveTokenTransfer sys x1 s).2.1).2.1 =
        (saveTokenTransfer sys x1 s).2.1 ∧
      (saveTokenTransfer sys x2 (saveTokenTransfer sys x1 s).2.1).1 =
        refuses (.insertTokenTransfer x2) (saveTokenTransfer sys x1 s).2.1 ∧
      ((saveTokenTransfer sys x1 s).2.1.transferAt (x1.TxHash, x1.LogIndex)).length = 1 ∧
      (saveTokenTransfer sys x1 s).2.1.transferAt (x1.TxHash, x1.LogIndex) =
        (if s.transferAt (x1.TxHash, x1.LogIndex) = [] then [x1]
          else s.transferAt (x1.TxHash, x1.LogIndex))) ∧
    ((saveContractEvent sys e1 s).1 = none →
      (saveContractEvent sys e2 (saveContractEvent sys e1 s).2.1).2.1 =
        (saveContractEvent sys e1 s).2.1 ∧
      ((saveContractEvent sys e1 s).2.1.eventAt (e1.TxHash, e1.LogIndex)).length = 1 ∧
      (∃ js, sys.jsonMarshal e1.Data = .ok js ∧
        (saveContractEvent sys e1 s).2.1.eventAt (e1.TxHash, e1.LogIndex) =
          (if s.eventAt (e1.TxHash, e1.LogIndex) = [] then [eventRowOf e1 js]
            else s.eventAt (e1.TxHash, e1.LogIndex))) ∧
      (∀ js2, sys.jsonMarshal e2.Data = .ok js2 →
        (saveContractEvent sys e2 (saveContractEvent sys e1 s).2.1).1 =
          refuses (.insertContractEvent (eventRowOf e2 js2))
            (saveContractEvent sys e1 s).2.1)) ∧
    (((saveBlock sys b1 s).1 ≠ none → (saveBlock sys b1 s).2.1 = s) ∧
      ((saveTransaction sys t1 s).1 ≠ none → (saveTransaction sys t1 s).2.1 = s) ∧
      ((saveTokenTransfer sys x1 s).1 ≠ none → (saveTokenTransfer sys x1 s).2.1 = s) ∧
      ((saveContractEvent sys e1 s).1 ≠ none → (saveContractEvent sys e1 s).2.1 = s)) ∧
    ((saveBlock sys b1 (saveBlock sys b1 s).2.1).2.1 = (saveBlock sys b1 s).2.1 ∧
      (saveTransaction sys t1 (saveTransaction sys t1 s).2.1).2.1 =
        (saveTransaction sys t1 s).2.1 ∧
      (saveTokenTransfer sys x1 (saveTokenTransfer sys x1 s).2.1).2.1 =
        (saveTokenTransfer sys x1 s).2.1 ∧
      (saveContractEvent sys e1 (saveContractEvent sys e1 s).2.1).2.1 =
        (saveContractEvent sys e1 s).2.1) := by
  have hxk : x1.key = x2.key := by
    show (x1.TxHash, x1.LogIndex) = (x2.TxHash, x2.LogIndex)
    rw [hx.1, hx.2]
  refine ⟨?_, ?_, ?_, ?_, ⟨?_, ?_, ?_, ?_⟩, ⟨?_, ?_, ?_, ?_⟩⟩
  · intro h1
    simp only [saveBlock, hsys] at h1 ⊢
    exact Store.exec_block_twice refuses s hwf (blockRow sys b1) (blockRow sys b2) hb h1
  · intro h1
    simp only [saveTransaction, hsys] at h1 ⊢
    exact Store.exec_transaction_twice refuses s hwf (transactionRow t1) (transactionRow t2)
      ht h1
  · intro h1
    simp only [saveTokenTransfer, hsys] at h1 ⊢
    exact Store.exec_transfer_twice refuses s hwf x1 x2 hxk h1
  · exact saveContractEvent_twice refuses sys hsys s hwf e1 e2 he
  · intro h
    simp only [saveBlock, hsys] at h ⊢
    exact Store.exec_error_unchanged refuses _ s h
  · intro h
    simp only [saveTransaction, hsys] at h ⊢
    exact Store.exec_error_unchanged refuses _ s h
  · intro h
    simp only [saveTokenTransfer, hsys] at h ⊢
    exact Store.exec_error_unchanged refuses _ s h
  · exact (saveContractEvent_error_and_idem refuses sys hsys s e1).1
  · simp only [saveBlock, hsys]
    exact Store.exec_idem_store refuses _ s
  · simp only [saveTransaction, hsys]
    exact Store.exec_idem_store refuses _ s
  · simp only [saveTokenTransfer, hsys]
    exact Store.exec_idem_store refuses _ s
  · exact (saveContractEvent_error_and_idem refuses sys hsys s e1).2

/-- C3 on the example chain, whose store refuses what the driver refuses and
already holds block 5: two saves of blocks numbered 6 leave the row of the
first, the second save changing nothing and reporting no error. -/
theorem C3_save_twice_witness :
    chainSys.Exec = Store.exec driverRefuses ∧ storeWithRows.WF ∧
      (saveBlock chainSys (blockWith 6 0xbb []) storeWithRows).1 = none ∧
      (saveBlock chainSys (blockWith 6 0xcc [])
          (saveBlock chainSys (blockWith 6 0xbb []) storeWithRows).2.1).2.1 =
        (saveBlock chainSys (blockWith 6 0xbb []) storeWithRows).2.1 ∧
      (saveBlock chainSys (blockWith 6 0xcc [])
          (saveBlock chainSys (blockWith 6 0xbb []) storeWithRows).2.1).1 = none ∧
      (saveBlock chainSys (blockWith 6 0xbb []) storeWithRows).2.1.blockAt 6 =
        [blockRow chainSys (blockWith 6 0xbb [])] :=
  have h := (C3_save_twice driverRefuses chainSys rfl storeWithRows storeWithRows_WF
    (blockWith 6 0xbb []) (blockWith 6 0xcc []) (txDataWith "0x52" "1" 21000)
    (txDataWith "0x52" "2" 21000) (transferWith "0x52" 0 "1") (transferWith "0x52" 0 "2")
    (eventWith "0x52" 0 "Approval") (eventWith "0x52" 0 "Transfer") rfl rfl ⟨rfl, rfl⟩
    ⟨rfl, rfl⟩).1 (by decide)
  ⟨rfl, storeWithRows_WF, by decide, h.1, h.2.1.trans (by decide), h.2.2.2.trans (by decide)⟩

/-- C3 (counterexample): on the example chain, in a store that already holds a
row for block 5 with hash `0xaa`, `saveBlock` of a block 5 with hash `0xb1`
and then of a block 5 with hash `0xb2` both report no error, and the one
stored row for key 5 is the row with hash `0xaa`, not the row of the first of
the two writes. And in the empty store, `saveTransaction` of a row whose
`GasUsed` is `2^63` reports an error both times it is called, and no row is
stored for its key. -/
theorem C3_first_write_not_retained :
    storeWithRows.blockAt 5 = [blockRowWith 5 "0xaa"] ∧
      (saveBlock chainSys (blockWith 5 0xb1 []) storeWithRows).1 = none ∧
      (saveBlock chainSys (blockWith 5 0xb2 [])
        (saveBlock chainSys (blockWith 5 0xb1 []) storeWithRows).2.1).1 = none ∧
      (saveBlock chainSys (blockWith 5 0xb2 [])
        (saveBlock chainSys (blockWith 5 0xb1 []) storeWithRows).2.1).2.1.blockAt 5 =
          [blockRowWith 5 "0xaa"] ∧
      blockRowWith 5 "0xaa" ≠ blockRow chainSys (blockWith 5 0xb1 []) ∧
      (saveTransaction chainSys (txDataWith "0x52" "1" (2 ^ 63)) Store.empty).1 ≠ none ∧
      (saveTransaction chainSys (txDataWith "0x52" "1" (2 ^ 63))
        (saveTransaction chainSys (txDataWith "0x52" "1" (2 ^ 63)) Store.empty).2.1).1 ≠
          none ∧
      (saveTransaction chainSys (txDataWith "0x52" "1" (2 ^ 63))
        (saveTransaction chainSys (txDataWith "0x52" "1" (2 ^ 63))
          Store.empty).2.1).2.1.transactionAt "0x52" = [] := by
  decide

/-! ## Decimal numerals -/

theorem digitChar_val : ∀ k, k < 10 → (Nat.digitChar k).toNat - 48 = k := by
  decide

theorem toDigitsCore_value : ∀ (fuel n : Nat) (ds : List Char), n < fuel →
    (Nat.toDigitsCore 10 fuel n ds).foldl (fun a c => a * 10 + (c.toNat - 48)) 0 =
      ds.foldl (fun a c => a * 10 + (c.toNat - 48)) n := by
  intro fuel
  induction fuel with
  | zero => intro n ds h; omega
  | succ f ih =>
    intro n ds h
    rw [Nat.toDigitsCore]
    have hd : (Nat.digitChar (n % 10)).toNat - 48 = n % 10 :=
      digitChar_val _ (Nat.mod_lt _ (by decide))
    by_cases h0 : n / 10 = 0
    · simp only [h0, if_true, List.foldl_cons, hd]
      congr 1
      omega
    · simp only [h0, if_false]
      rw [ih (n / 10) _ (by omega)]
      simp only [List.foldl_cons, hd]
      congr 1
      omega

theorem natRepr_injective (a b : Nat) (h : Nat.repr a = Nat.repr b) : a = b := by
  have h2 : Nat.toDigits 10 a = Nat.toDigits 10 b := by
    have := congrArg String.data h
    simpa [Nat.repr, List.asString] using this
  have ha := toDigitsCore_value (a + 1) a [] (by omega)
  have hb := toDigitsCore_value (b + 1) b [] (by omega)
  simp only [List.foldl_nil] at ha hb
  unfold Nat.toDigits at h2
  rw [h2] at ha
  omega

theorem digitChar_ne_minus : ∀ k, k < 10 → Nat.digitChar k ≠ '-' := by
  decide

theorem toDigitsCore_head : ∀ (fuel n : Nat) (ds : List Char), n < fuel →
    ∃ k, k < 10 ∧ ∃ rest, Nat.toDigitsCore 10 fuel n ds = Nat.digitChar k :: rest := by
  intro fuel
  induction fuel with
  | zero => intro n ds h; omega
  | succ f ih =>
    intro n ds h
    rw [Nat.toDigitsCore]
    by_cases h0 : n / 10 = 0
    · simp only [h0, if_true]
      exact ⟨n % 10, Nat.mod_lt _ (by decide), ds, rfl⟩
    · simp only [h0, if_false]
      exact ih (n / 10) _ (by omega)

theorem natRepr_head (n : Nat) :
    ∃ k, k < 10 ∧ ∃ rest, (Nat.repr n).data = Nat.digitChar k :: rest := by
  obtain ⟨k, hk, rest, h⟩ := toDigitsCore_head (n + 1) n [] (by omega)
  exact ⟨k, hk, rest, by simpa [Nat.repr, List.asString, Nat.toDigits] using h⟩

theorem sprintfD_injective (a b : Int) (h : sprintfD a = sprintfD b) : a = b := by
  have hd := congrArg String.data h
  cases a with
  | ofNat m =>
    cases b with
    | ofNat n =>
      simp only [sprintfD] at h
      rw [natRepr_injective m n h]
    | negSucc n =>
      exfalso
      obtain ⟨k, hk, rest, hm⟩ := natRepr_head m
      simp only [sprintfD, String.data_append] at hd
      rw [hm] at hd
      have : Nat.digitChar k = '-' := by
        have := List.head_eq_of_cons_eq hd
        exact this
      exact digitChar_ne_minus k hk this
  | negSucc m =>
    cases b with
    | ofNat n =>
      exfalso
      obtain ⟨k, hk, rest, hn⟩ := natRepr_head n
      simp only [sprintfD, String.data_append] at hd
      rw [hn] at hd
      have : '-' = Nat.digitChar k := List.head_eq_of_cons_eq hd
      exact digitChar_ne_minus k hk this.symm
    | negSucc n =>
      simp only [sprintfD, String.data_append] at hd
      have ht : (Nat.repr (m + 1)).data = (Nat.repr (n + 1)).data := List.tail_eq_of_cons_eq hd
      have := natRepr_injective (m + 1) (n + 1) (String.ext ht)
      have : m = n := by omega
      rw [this]

theorem append_mid_cancel (p a b q : String) (h : p ++ a ++ q = p ++ b ++ q) : a = b := by
  have hd := congrArg String.data h
  simp only [String.data_append, List.append_assoc] at hd
  have h1 := List.append_cancel_left hd
  exact String.ext (List.append_cancel_right h1)

/-! ## The aggregation query -/

/-- The query text determines the window: different windows, different SQL. -/
theorem topTokensQueryText_injective (d1 d2 : Int)
    (h : topTokensQueryText d1 = topTokensQueryText d2) : d1 = d2 :=
  sprintfD_injective d1 d2 (append_mid_cancel _ _ _ _ h)

/-- C9 (as amended): for every limit and window, the one query
`GetTopTokensByVolume` sends to the store has as its text the template with
the decimal numeral of the window written into the `INTERVAL` literal, and as
its only bound argument the limit; so the text does not depend on the limit,
and two windows give the same text exactly when they are equal. -/
theorem C9_query_text_interpolates_days (ω : Type) (sys : Sys ω) (limit days : Int) (w : ω) :
    queriesOf (GetTopTokensByVolume sys limit days w).2.2 =
        [(topTokensQueryHead ++ sprintfD days ++ topTokensQueryTail, [limit])] ∧
      (∀ d1 d2 : Int, topTokensQueryText d1 = topTokensQueryText d2 ↔ d1 = d2) := by
  constructor
  · rfl
  · intro d1 d2
    exact ⟨topTokensQueryText_injective d1 d2, fun h => by rw [h]⟩

/-- C9 (counterexample): with the same limit 10, the windows 1 and 2 make
`GetTopTokensByVolume` send two different SQL texts to the store: the window
is written into the text as the numeral `1` or `2`, and the bound arguments
hold the limit only. -/
theorem C9_query_text_differs :
    (queriesOf (GetTopTokensByVolume downSys 10 1 ()).2.2).map (fun q => q.1) ≠
        (queriesOf (GetTopTokensByVolume downSys 10 2 ()).2.2).map (fun q => q.1) ∧
      (queriesOf (GetTopTokensByVolume downSys 10 1 ()).2.2).map (fun q => q.1) =
        [topTokensQueryHead ++ "1" ++ topTokensQueryTail] ∧
      (queriesOf (GetTopTokensByVolume downSys 10 2 ()).2.2).map (fun q => q.1) =
        [topTokensQueryHead ++ "2" ++ topTokensQueryTail] ∧
      (queriesOf (GetTopTokensByVolume downSys 10 1 ()).2.2).map (fun q => q.2) = [[10]] := by
  refine ⟨?_, rfl, rfl, rfl⟩
  intro h
  have h1 : [topTokensQueryText 1] = [topTokensQueryText 2] := h
  have h2 := topTokensQueryText_injective 1 2 (List.head_eq_of_cons_eq h1)
  exact absurd h2 (by decide)

/-! ## The event decoder -/

theorem indexedKey_injective (i j : Nat) (h : indexedKey i = indexedKey j) : i = j := by
  unfold indexedKey at h
  have hd := congrArg String.data h
  simp only [String.data_append] at hd
  exact natRepr_injective i j (String.ext (List.append_cancel_left hd))

theorem GoMap.get_set_same {α : Type} (m : GoMap α) (k : String) (v : α) :
    (m.set k v).get k = some v := by
  simp [GoMap.set, GoMap.get, List.lookup]

theorem GoMap.lookup_filter_ne {α : Type} (k k2 : String) (hne : k2 ≠ k) :
    ∀ m : List (String × α), List.lookup k2 (m.filter (fun kv => kv.1 ≠ k)) = List.lookup k2 m := by
  intro m
  induction m with
  | nil => rfl
  | cons a t ih =>
    obtain ⟨ak, av⟩ := a
    by_cases h1 : ak = k
    · subst h1
      have h2 : (k2 == ak) = false := beq_false_of_ne hne
      have hf : List.filter (fun kv : String × α => decide (kv.1 ≠ ak)) ((ak, av) :: t) =
          List.filter (fun kv : String × α => decide (kv.1 ≠ ak)) t := by
        simp [List.filter_cons]
      rw [hf, ih]
      simp [List.lookup, h2]
    · have hf : List.filter (fun kv : String × α => decide (kv.1 ≠ k)) ((ak, av) :: t) =
          (ak, av) :: List.filter (fun kv : String × α => decide (kv.1 ≠ k)) t := by
        simp [List.filter_cons, h1]
      rw [hf]
      by_cases h3 : k2 = ak
      · subst h3
        simp [List.lookup]
      · have h2 : (k2 == ak) = false := beq_false_of_ne h3
        simp only [List.lookup, h2]
        exact ih

theorem GoMap.get_set_other {α : Type} (m : GoMap α) (k k2 : String) (v : α) (hne : k2 ≠ k) :
    (m.set k v).get k2 = m.get k2 := by
  unfold GoMap.set GoMap.get
  rw [List.lookup_cons, beq_false_of_ne hne]
  exact GoMap.lookup_filter_ne k k2 hne m

/-- The loop over the indexed topics from index `i0` leaves every key alone
that is not `indexed_i` for some `i` with `i0 ≤ i < nFields`. -/
theorem addIndexed_get_other (nFields : Nat) (k : String) :
    ∀ (topics : List Nat) (i0 : Nat) (m : GoMap Value),
      (∀ i, i0 ≤ i → i < nFields → k ≠ indexedKey i) →
      (addIndexed nFields i0 topics m).get k = m.get k := by
  intro topics
  induction topics with
  | nil => intro i0 m _; rfl
  | cons t rest ih =>
    intro i0 m hk
    rw [addIndexed]
    by_cases hi : i0 < nFields
    · rw [if_pos hi, ih (i0 + 1) _ (fun i h1 h2 => hk i (by omega) h2)]
      exact GoMap.get_set_other m _ k _ (hk i0 (le_refl _) hi)
    · rw [if_neg hi]
      exact ih (i0 + 1) m (fun i h1 h2 => hk i (by omega) h2)

/-- The loop over the indexed topics from index `i0` stores the hex string of
the `j`-th remaining topic under `indexed_(i0+j)` when `i0 + j < nFields`. -/
theorem addIndexed_get_indexed (nFields : Nat) :
    ∀ (topics : List Nat) (i0 : Nat) (m : GoMap Value) (j : Nat),
      j < topics.length → i0 + j < nFields →
      (addIndexed nFields i0 topics m).get (indexedKey (i0 + j)) =
        some (Value.str (hashHex (topics.getD j 0))) := by
  intro topics
  induction topics with
  | nil => intro i0 m j hj _; simp at hj
  | cons t rest ih =>
    intro i0 m j hj hn
    rw [addIndexed, if_pos (by omega)]
    cases j with
    | zero =>
      show (addIndexed nFields (i0 + 1) rest
        (m.set (indexedKey i0) (Value.str (hashHex t)))).get (indexedKey i0) =
          some (Value.str (hashHex t))
      rw [addIndexed_get_other nFields (indexedKey i0) rest (i0 + 1) _
        (fun i h1 _ heq => by have := indexedKey_injective _ _ heq; omega)]
      exact GoMap.get_set_same m (indexedKey i0) (Value.str (hashHex t))
    | succ j2 =>
      have hj2 : j2 < rest.length := by simpa using hj
      have := ih (i0 + 1) (m.set (indexedKey i0) (Value.str (hashHex t))) j2 hj2 (by omega)
      rw [show i0 + (j2 + 1) = i0 + 1 + j2 by omega, this]
      simp

/-- C10 (as amended): for every log whose topic 0 matches a configured event
signature and whose payload decodes, the event that is saved is built from the
decoded fields by the indexed-topic loop, and its field mapping contains, for
every `i` with `i + 1 < len(Topics)` and `i < len(Fields)`, the key
`indexed_<i>` with value the raw hex string of topic `i + 1`; for `i` at or
above the number of configured fields the key `indexed_<i>` is left as the
decoder produced it (absent unless the decoder itself produced that key). -/
theorem C10_indexed_topics_up_to_field_count (ω : Type) (sys : Sys ω) (contractABI : String)
    (block : Block) (vLog : Log) (eventName : String) (eventConfig : EventConfig)
    (rest : GoMap EventConfig) (w : ω) (unpacked : GoMap Value)
    (hlen : 0 < vLog.Topics.length)
    (hsig : vLog.Topics.head?.map hashHex = some eventConfig.Signature)
    (hdec : sys.UnpackIntoMap contractABI eventName vLog.Data = .ok unpacked) :
    (∃ tail : List Ev,
      (eventsLoop sys contractABI block vLog ((eventName, eventConfig) :: rest) w).2 =
        (saveContractEvent sys
          (eventOf block eventName eventConfig vLog unpacked sys.AddressHex) w).2.2 ++ tail) ∧
    (∀ i : Nat, i + 1 < vLog.Topics.length → i < eventConfig.Fields.length →
      (eventOf block eventName eventConfig vLog unpacked sys.AddressHex).Data.get
          (indexedKey i) = some (Value.str (hashHex (vLog.Topics.getD (i + 1) 0)))) ∧
    (∀ i : Nat, eventConfig.Fields.length ≤ i →
      (eventOf block eventName eventConfig vLog unpacked sys.AddressHex).Data.get
          (indexedKey i) = unpacked.get (indexedKey i)) := by
  refine ⟨?_, ?_, ?_⟩
  · rw [eventsLoop, if_pos ⟨hlen, hsig⟩]
    simp only [hdec]
    exact ⟨_, List.append_assoc _ _ _⟩
  · intro i hi hf
    have h := addIndexed_get_indexed eventConfig.Fields.length vLog.Topics.tail 0 unpacked i
      (by rw [List.length_tail]; omega) (by omega)
    rw [Nat.zero_add] at h
    show (addIndexed _ 0 vLog.Topics.tail unpacked).get _ = _
    rw [h]
    cases hT : vLog.Topics with
    | nil => rw [hT] at hlen; simp at hlen
    | cons a t => simp
  · intro i hi
    exact addIndexed_get_other eventConfig.Fields.length (indexedKey i) vLog.Topics.tail 0
      unpacked (fun j _ h2 heq => by have := indexedKey_injective _ _ heq; omega)

/-- C10 at a concrete log: a `Transfer` log with two indexed topics and an
event configured with three fields gets `indexed_0`, the hex of topic 1. -/
theorem C10_indexed_topics_witness :
    0 < transferLog.Topics.length ∧
      transferLog.Topics.head?.map hashHex = some fullTransferConfig.Signature ∧
      downSys.UnpackIntoMap "[]" "Transfer" transferLog.Data = .ok [] ∧
      0 + 1 < transferLog.Topics.length ∧ 0 < fullTransferConfig.Fields.length ∧
      (eventOf (blockWith 5 0xb5 []) "Transfer" fullTransferConfig transferLog []
          downSys.AddressHex).Data.get (indexedKey 0) = some (Value.str (hashHex 1)) :=
  ⟨by decide, by decide, rfl, by decide, by decide,
    (C10_indexed_topics_up_to_field_count Unit downSys "[]" (blockWith 5 0xb5 []) transferLog
      "Transfer" fullTransferConfig [] () [] (by decide) (by decide) rfl).2.1 0 (by decide)
      (by decide)⟩

/-- C10 (counterexample): a log whose topic 0 matches the configured
`Transfer` signature, whose payload decodes, and which has two topics beyond
the first, but whose event is configured with an empty `Fields` map, is saved
with a field mapping that has neither `indexed_0` nor `indexed_1`. -/
theorem C10_no_indexed_key_without_fields :
    0 < transferLog.Topics.length ∧
      transferLog.Topics.head?.map hashHex = some bareTransferConfig.Signature ∧
      downSys.UnpackIntoMap "[]" "Transfer" transferLog.Data = .ok [] ∧
      transferLog.Topics.length = 3 ∧ bareTransferConfig.Fields.length = 0 ∧
      (eventOf (blockWith 5 0xb5 []) "Transfer" bareTransferConfig transferLog []
          downSys.AddressHex).Data.get (indexedKey 0) = none ∧
      (eventOf (blockWith 5 0xb5 []) "Transfer" bareTransferConfig transferLog []
          downSys.AddressHex).Data.get (indexedKey 1) = none :=
  ⟨by decide, by decide, rfl, by decide, by decide, by decide, by decide⟩

/-! ## What each stage can emit -/

theorem belowTransaction_projections (t : List Ev) (h : t.all Ev.belowTransaction = true) :
    transactionsOf t = [] ∧ blocksOf t = [] ∧ fetchedOf t = [] ∧
      t.all Ev.belowBlock = true := by
  induction t with
  | nil => exact ⟨rfl, rfl, rfl, rfl⟩
  | cons e t ih =>
    rw [List.all_cons, Bool.and_eq_true] at h
    obtain ⟨i1, i2, i3, i4⟩ := ih h.2
    have he := h.1
    unfold transactionsOf blocksOf fetchedOf at *
    cases e with
    | exec s ok =>
      cases s <;>
        simp_all [Ev.belowTransaction, Ev.belowBlock, Ev.asTransaction, Ev.asBlock, Ev.asFetch]
    | _ =>
      simp_all [Ev.belowTransaction, Ev.belowBlock, Ev.asTransaction, Ev.asBlock, Ev.asFetch]

theorem belowBlock_projections (t : List Ev) (h : t.all Ev.belowBlock = true) :
    blocksOf t = [] ∧ fetchedOf t = [] := by
  induction t with
  | nil => exact ⟨rfl, rfl⟩
  | cons e t ih =>
    rw [List.all_cons, Bool.and_eq_true] at h
    obtain ⟨i1, i2⟩ := ih h.2
    have he := h.1
    unfold blocksOf fetchedOf at *
    cases e with
    | exec s ok =>
      cases s <;> simp_all [Ev.belowBlock, Ev.asBlock, Ev.asFetch]
    | _ => simp_all [Ev.belowBlock, Ev.asBlock, Ev.asFetch]

theorem processTokenTransfersLoop_below {ω : Type} (sys : Sys ω) (receipt : Receipt)
    (block : Block) :
    ∀ (logs : List Log) (w : ω),
      (processTokenTransfersLoop sys receipt block logs w).2.all Ev.belowTransaction = true := by
  intro logs
  induction logs with
  | nil => intro w; rfl
  | cons l rest ih =>
    intro w
    rw [processTokenTransfersLoop]
    split
    · split
      · simp only [List.all_append, ih, Bool.and_true]
        cases (saveTokenTransfer sys (transferOf sys receipt block l) w).1 <;>
          simp [saveTokenTransfer, Ev.belowTransaction]
      · exact ih w
    · exact ih w

theorem saveContractEvent_below {ω : Type} (sys : Sys ω) (event : EventData) (w : ω) :
    (saveContractEvent sys event w).2.2.all Ev.belowTransaction = true := by
  unfold saveContractEvent
  split <;> simp [Ev.belowTransaction]

theorem eventsLoop_below {ω : Type} (sys : Sys ω) (contractABI : String) (block : Block)
    (vLog : Log) :
    ∀ (events : GoMap EventConfig) (w : ω),
      (eventsLoop sys contractABI block vLog events w).2.all Ev.belowTransaction = true := by
  intro events
  induction events with
  | nil => intro w; rfl
  | cons ev rest ih =>
    intro w
    obtain ⟨eventName, eventConfig⟩ := ev
    rw [eventsLoop]
    split
    · split
      · simp [ih, Ev.belowTransaction]
      · simp only [List.all_append, ih, Bool.and_true, saveContractEvent_below, Bool.true_and]
        split <;> simp [Ev.belowTransaction]
    · exact ih w

theorem logsLoop_below {ω : Type} (sys : Sys ω) (config : ContractConfig) (block : Block) :
    ∀ (logs : List Log) (w : ω),
      (logsLoop sys config block logs w).2.all Ev.belowTransaction = true := by
  intro logs
  induction logs with
  | nil => intro w; rfl
  | cons l rest ih =>
    intro w
    rw [logsLoop]
    simp only [List.all_append, ih, eventsLoop_below, Bool.and_true]

theorem processContractEventsForAddress_below {ω : Type} (sys : Sys ω) (contractAddr : String)
    (config : ContractConfig) (block : Block) (w : ω) :
    (processContractEventsForAddress sys contractAddr config block w).2.2.all
      Ev.belowTransaction = true := by
  cases h : sys.FilterLogs
      { FromBlock := block.Number, ToBlock := block.Number,
        Addresses := [sys.HexToAddress contractAddr] } w with
  | mk res w1 =>
    cases res with
    | error e => simp [processContractEventsForAddress, h, Ev.belowTransaction]
    | ok logs =>
      cases h2 : sys.abiJSON config.ABI with
      | some e => simp [processContractEventsForAddress, h, h2, Ev.belowTransaction]
      | none =>
        simp only [processContractEventsForAddress, h, h2, List.all_cons, logsLoop_below,
          Ev.belowTransaction, Bool.and_self]

theorem processContractEvents_below {ω : Type} (sys : Sys ω) (block : Block) :
    ∀ (contracts : GoMap ContractConfig) (w : ω),
      (processContractEvents sys block contracts w).2.2.all Ev.belowTransaction = true := by
  intro contracts
  induction contracts with
  | nil => intro w; rfl
  | cons c rest ih =>
    intro w
    obtain ⟨contractAddr, config⟩ := c
    rw [processContractEvents]
    split
    · exact processContractEventsForAddress_below sys contractAddr config block w
    · simp only [List.all_append, ih, Bool.and_true]
      exact processContractEventsForAddress_below sys contractAddr config block w

/-! ## Transactions -/

/-- A receipt that cannot be fetched ends `processTransaction` at once. -/
theorem processTransaction_receipt_error {ω : Type} (sys : Sys ω) (tx : Transaction)
    (block : Block) (w w1 : ω) (e : Err)
    (hr : sys.TransactionReceipt tx.Hash w = (.error e, w1)) :
    processTransaction sys tx block w = (some e, w1, [Ev.receipt tx.Hash false]) := by
  simp [processTransaction, hr]

/-- A transaction row the store refuses ends `processTransaction` with the
store's error, before the receipt's logs are looked at. -/
theorem processTransaction_save_error {ω : Type} (sys : Sys ω) (tx : Transaction)
    (block : Block) (w w1 w2 : ω) (receipt : Receipt) (e : Err)
    (hr : sys.TransactionReceipt tx.Hash w = (.ok receipt, w1))
    (hs : sys.Exec (.insertTransaction (transactionRow (txDataOf sys tx block receipt))) w1 =
      (some e, w2)) :
    processTransaction sys tx block w =
      (some e, w2, [Ev.receipt tx.Hash true,
        Ev.exec (.insertTransaction (transactionRow (txDataOf sys tx block receipt))) false]) := by
  simp [processTransaction, hr, saveTransaction, hs]

/-- A transaction row the store accepts is followed by the receipt's token
transfers, and `processTransaction` returns `nil`. -/
theorem processTransaction_saved {ω : Type} (sys : Sys ω) (tx : Transaction)
    (block : Block) (w w1 w2 : ω) (receipt : Receipt)
    (hr : sys.TransactionReceipt tx.Hash w = (.ok receipt, w1))
    (hs : sys.Exec (.insertTransaction (transactionRow (txDataOf sys tx block receipt))) w1 =
      (none, w2)) :
    processTransaction sys tx block w =
      (none, (processTokenTransfers sys receipt block w2).2.1,
        Ev.receipt tx.Hash true ::
          Ev.exec (.insertTransaction (transactionRow (txDataOf sys tx block receipt))) true ::
            (processTokenTransfers sys receipt block w2).2.2) := by
  simp [processTransaction, hr, saveTransaction, hs, processTokenTransfers]

/-- With its receipt fetched, `processTransaction` hands exactly one
transaction row to the store and returns the store's answer to it. -/
theorem processTransaction_row {ω : Type} (sys : Sys ω) (tx : Transaction)
    (block : Block) (w w1 : ω) (receipt : Receipt)
    (hr : sys.TransactionReceipt tx.Hash w = (.ok receipt, w1)) :
    transactionsOf (processTransaction sys tx block w).2.2 =
        [transactionRow (txDataOf sys tx block receipt)] ∧
      (processTransaction sys tx block w).1 =
        (sys.Exec (.insertTransaction (transactionRow (txDataOf sys tx block receipt))) w1).1 := by
  cases hs : sys.Exec (.insertTransaction (transactionRow (txDataOf sys tx block receipt))) w1 with
  | mk err w2 =>
    cases err with
    | some e =>
      rw [processTransaction_save_error sys tx block w w1 w2 receipt e hr hs]
      exact ⟨rfl, rfl⟩
    | none =>
      rw [processTransaction_saved sys tx block w w1 w2 receipt hr hs]
      refine ⟨?_, rfl⟩
      have hb := (belowTransaction_projections _
        (processTokenTransfersLoop_below sys receipt block receipt.Logs w2)).1
      show transactionsOf (_ :: _ :: (processTokenTransfersLoop sys receipt block receipt.Logs w2).2)
        = _
      unfold transactionsOf at hb ⊢
      simp [List.filterMap_cons, Ev.asTransaction, hb]

/-- C8 (as amended): for every transaction whose receipt is fetched,
`processTransaction` hands exactly one transaction row to the store, and the
only error it returns is the store's answer to that insert, so it does not
fail because a recipient is missing; for a contract creation (`tx.To()` is
nil) the `to_address` argument of that row is the empty string (a text
value, not null), and for a transaction with a recipient it is the
recipient's hex address. -/
theorem C8_to_address_argument (ω : Type) (sys : Sys ω) (tx : Transaction) (block : Block)
    (w w1 : ω) (receipt : Receipt)
    (hr : sys.TransactionReceipt tx.Hash w = (.ok receipt, w1)) :
    transactionsOf (processTransaction sys tx block w).2.2 =
        [transactionRow (txDataOf sys tx block receipt)] ∧
      (processTransaction sys tx block w).1 =
        (sys.Exec (.insertTransaction (transactionRow (txDataOf sys tx block receipt))) w1).1 ∧
      (tx.To = none →
        (transactionRow (txDataOf sys tx block receipt)).to_address = some "") ∧
      (∀ a : Nat, tx.To = some a →
        (transactionRow (txDataOf sys tx block receipt)).to_address =
          some (sys.AddressHex a)) := by
  obtain ⟨h1, h2⟩ := processTransaction_row sys tx block w w1 receipt hr
  refine ⟨h1, h2, ?_, ?_⟩
  · intro hto
    simp [transactionRow, txDataOf, hto]
  · intro a hto
    simp [transactionRow, txDataOf, hto]

/-- C8 at concrete transactions of the example chain: the creation `0x51` is
written with the empty string as `to_address` and no error, the payment
`0x53` with the hex address of its recipient. -/
theorem C8_to_address_argument_witness :
    chainSys.TransactionReceipt creationTx.Hash Store.empty =
        (.ok { TxHash := 0x51, GasUsed := 21000, Status := 1, Logs := [transferLog] },
          Store.empty) ∧
      creationTx.To = none ∧
      (transactionsOf (processTransaction chainSys creationTx block0 Store.empty).2.2).map
        (fun r => r.to_address) = [some ""] ∧
      (processTransaction chainSys creationTx block0 Store.empty).1 = none :=
  have h := C8_to_address_argument Store chainSys creationTx block0 Store.empty Store.empty
    { TxHash := 0x51, GasUsed := 21000, Status := 1, Logs := [transferLog] } rfl
  ⟨rfl, rfl, by rw [h.1, List.map_cons, h.2.2.1 rfl]; rfl, by rw [h.2.1]; rfl⟩

/-- C8 (counterexample): for the contract-creation transaction `0x51` of the
example chain, whose receipt is fetched, the transaction row written by
`processTransaction` has the empty string as its `to_address` argument: the
argument is a text value, not null. -/
theorem C8_creation_writes_empty_string :
    creationTx.To = none ∧
      (transactionsOf (processTransaction chainSys creationTx block0 Store.empty).2.2).map
        (fun r => r.to_address) = [some ""] ∧
      (some "" : Option String) ≠ none := by
  refine ⟨rfl, ?_, by decide⟩
  rw [(processTransaction_row chainSys creationTx block0 Store.empty Store.empty
    { TxHash := 0x51, GasUsed := 21000, Status := 1, Logs := [transferLog] } rfl).1]
  rfl

/-! ## Blocks -/

theorem belowBlock_savedBlocks (t : List Ev) (h : t.all Ev.belowBlock = true) :
    savedBlocksOf t = [] := by
  induction t with
  | nil => rfl
  | cons e t ih =>
    rw [List.all_cons, Bool.and_eq_true] at h
    have i1 := ih h.2
    have he := h.1
    unfold savedBlocksOf at *
    cases e with
    | exec s ok =>
      cases s <;> simp_all [Ev.belowBlock, Ev.asSavedBlock]
    | _ => simp_all [Ev.belowBlock, Ev.asSavedBlock]

theorem belowTransaction_savedTransactions (t : List Ev)
    (h : t.all Ev.belowTransaction = true) : savedTransactionsOf t = [] := by
  induction t with
  | nil => rfl
  | cons e t ih =>
    rw [List.all_cons, Bool.and_eq_true] at h
    have i1 := ih h.2
    have he := h.1
    unfold savedTransactionsOf at *
    cases e with
    | exec s ok =>
      cases s <;> simp_all [Ev.belowTransaction, Ev.asSavedTransaction]
    | _ => simp_all [Ev.belowTransaction, Ev.asSavedTransaction]

theorem processTransaction_below {ω : Type} (sys : Sys ω) (tx : Transaction) (block : Block)
    (w : ω) : (processTransaction sys tx block w).2.2.all Ev.belowBlock = true := by
  cases hr : sys.TransactionReceipt tx.Hash w with
  | mk res w1 =>
    cases res with
    | error e =>
      rw [processTransaction_receipt_error sys tx block w w1 e hr]
      rfl
    | ok receipt =>
      cases hs : sys.Exec
          (.insertTransaction (transactionRow (txDataOf sys tx block receipt))) w1 with
      | mk err w2 =>
        cases err with
        | some e =>
          rw [processTransaction_save_error sys tx block w w1 w2 receipt e hr hs]
          rfl
        | none =>
          rw [processTransaction_saved sys tx block w w1 w2 receipt hr hs]
          have hb := (belowTransaction_projections _
            (processTokenTransfersLoop_below sys receipt block receipt.Logs w2)).2.2.2
          simp only [List.all_cons, Ev.belowBlock, Bool.true_and]
          exact hb

theorem processBlockTxLoop_below {ω : Type} (sys : Sys ω) (block : Block) :
    ∀ (txs : List Transaction) (w : ω),
      (processBlockTxLoop sys block txs w).2.all Ev.belowBlock = true := by
  intro txs
  induction txs with
  | nil => intro w; rfl
  | cons tx rest ih =>
    intro w
    rw [processBlockTxLoop]
    simp only [List.all_append, ih, Bool.and_true, processTransaction_below, Bool.true_and]
    split <;> simp [Ev.belowBlock]

/-- The transaction loop of `processBlock` hands one row to the store for
every transaction whose receipt is fetched, in block order, and goes on after
a transaction that failed. -/
theorem processBlockTxLoop_rows {ω : Type} (sys : Sys ω) (block : Block)
    (R : Nat → Except Err Receipt) (hR : ∀ h w, (sys.TransactionReceipt h w).1 = R h) :
    ∀ (txs : List Transaction) (w : ω),
      transactionsOf (processBlockTxLoop sys block txs w).2 =
        rowsWithReceipt sys block R txs := by
  intro txs
  induction txs with
  | nil => intro w; rfl
  | cons tx rest ih =>
    intro w
    rw [processBlockTxLoop]
    have ih2 := ih (processTransaction sys tx block w).2.1
    unfold transactionsOf at ih2 ⊢
    simp only [List.filterMap_append, ih2]
    have hlog : List.filterMap Ev.asTransaction
        (match (processTransaction sys tx block w).1 with
          | some _ => [Ev.log "处理交易失败"]
          | none => []) = [] := by
      split <;> rfl
    rw [hlog, List.append_nil]
    cases hr : sys.TransactionReceipt tx.Hash w with
    | mk res w1 =>
      have hres : R tx.Hash = res := by rw [← hR tx.Hash w, hr]
      cases res with
      | error e =>
        rw [processTransaction_receipt_error sys tx block w w1 e hr]
        simp [rowsWithReceipt, hres, Ev.asTransaction]
      | ok receipt =>
        have h1 := (processTransaction_row sys tx block w w1 receipt hr).1
        unfold transactionsOf at h1
        rw [h1]
        simp [rowsWithReceipt, hres]

/-- When the store accepts the rows of the transactions whose receipt is
fetched, the rows it has accepted during the transaction loop are exactly
these, in block order. -/
theorem processBlockTxLoop_saved_rows {ω : Type} (sys : Sys ω) (block : Block)
    (R : Nat → Except Err Receipt) (hR : ∀ h w, (sys.TransactionReceipt h w).1 = R h) :
    ∀ (txs : List Transaction) (w : ω),
      (∀ r ∈ rowsWithReceipt sys block R txs, ∀ w,
        (sys.Exec (.insertTransaction r) w).1 = none) →
      savedTransactionsOf (processBlockTxLoop sys block txs w).2 =
        rowsWithReceipt sys block R txs := by
  intro txs
  induction txs with
  | nil => intro w _; rfl
  | cons tx rest ih =>
    intro w hacc
    rw [processBlockTxLoop]
    have hlog : List.filterMap Ev.asSavedTransaction
        (match (processTransaction sys tx block w).1 with
          | some _ => [Ev.log "处理交易失败"]
          | none => []) = [] := by
      split <;> rfl
    cases hr : sys.TransactionReceipt tx.Hash w with
    | mk res w1 =>
      have hres : R tx.Hash = res := by rw [← hR tx.Hash w, hr]
      cases res with
      | error e =>
        have hrows : rowsWithReceipt sys block R (tx :: rest) =
            rowsWithReceipt sys block R rest := by
          simp [rowsWithReceipt, hres]
        rw [hrows] at hacc ⊢
        have ih2 := ih (processTransaction sys tx block w).2.1 hacc
        unfold savedTransactionsOf at ih2 ⊢
        simp only [List.filterMap_append, ih2, hlog, List.append_nil]
        rw [processTransaction_receipt_error sys tx block w w1 e hr]
        simp [Ev.asSavedTransaction]
      | ok receipt =>
        have hrows : rowsWithReceipt sys block R (tx :: rest) =
            transactionRow (txDataOf sys tx block receipt) ::
              rowsWithReceipt sys block R rest := by
          simp [rowsWithReceipt, hres]
        rw [hrows] at hacc ⊢
        have ih2 := ih (processTransaction sys tx block w).2.1
          (fun r hr w => hacc r (List.mem_cons_of_mem _ hr) w)
        unfold savedTransactionsOf at ih2 ⊢
        simp only [List.filterMap_append, ih2, hlog, List.append_nil]
        have hs : sys.Exec
            (.insertTransaction (transactionRow (txDataOf sys tx block receipt))) w1 =
            (none, (sys.Exec
              (.insertTransaction (transactionRow (txDataOf sys tx block receipt))) w1).2) := by
          rw [← hacc (transactionRow (txDataOf sys tx block receipt))
            (List.mem_cons_self _ _) w1]
        rw [processTransaction_saved sys tx block w w1 _ receipt hr hs]
        have hb := belowTransaction_savedTransactions _
          (processTokenTransfersLoop_below sys receipt block receipt.Logs
            (sys.Exec
              (.insertTransaction (transactionRow (txDataOf sys tx block receipt))) w1).2)
        unfold savedTransactionsOf at hb
        show List.filterMap Ev.asSavedTransaction (_ :: _ ::
          (processTokenTransfersLoop sys receipt block receipt.Logs _).2) ++ _ = _
        simp [List.filterMap_cons, Ev.asSavedTransaction, hb]

/-- A block that cannot be fetched ends `processBlock` at once. -/
theorem processBlock_fetch_error {ω : Type} (sys : Sys ω) (contracts : GoMap ContractConfig)
    (n : Nat) (w w1 : ω) (e : Err) (hb : sys.BlockByNumber (int64 n) w = (.error e, w1)) :
    processBlock sys contracts n w = (some e, w1, [Ev.blockByNumber (int64 n) false]) := by
  simp [processBlock, hb]

/-- A block row the store refuses ends `processBlock` with the store's
error, before any transaction of the block is looked at. -/
theorem processBlock_save_error {ω : Type} (sys : Sys ω) (contracts : GoMap ContractConfig)
    (n : Nat) (w w1 w2 : ω) (block : Block) (e : Err)
    (hb : sys.BlockByNumber (int64 n) w = (.ok block, w1))
    (hs : sys.Exec (.insertBlock (blockRow sys block)) w1 = (some e, w2)) :
    processBlock sys contracts n w =
      (some e, w2, [Ev.blockByNumber (int64 n) true,
        Ev.exec (.insertBlock (blockRow sys block)) false]) := by
  simp [processBlock, hb, saveBlock, hs]

/-- After the block row is accepted `processBlock` runs the transaction loop
and then contract-event processing, and returns `nil` whatever they do. -/
theorem processBlock_saved {ω : Type} (sys : Sys ω) (contracts : GoMap ContractConfig)
    (n : Nat) (w w1 w2 : ω) (block : Block)
    (hb : sys.BlockByNumber (int64 n) w = (.ok block, w1))
    (hs : sys.Exec (.insertBlock (blockRow sys block)) w1 = (none, w2)) :
    processBlock sys contracts n w =
      (none,
        (processContractEvents sys block contracts
          (processBlockTxLoop sys block block.Transactions w2).1).2.1,
        Ev.blockByNumber (int64 n) true :: Ev.exec (.insertBlock (blockRow sys block)) true ::
          ((processBlockTxLoop sys block block.Transactions w2).2 ++
            (processContractEvents sys block contracts
              (processBlockTxLoop sys block block.Transactions w2).1).2.2 ++
            (match (processContractEvents sys block contracts
                (processBlockTxLoop sys block block.Transactions w2).1).1 with
              | some _ => [Ev.log "处理合约事件失败"]
              | none => []) ++
            [Ev.log "完成处理区块"])) := by
  simp [processBlock, hb, saveBlock, hs]

/-- C7: for every fetched block whose block row is saved without error, and
every assignment `R` of a fetched receipt or a fetch failure to the
transaction hashes, `processBlock` returns `nil`; the transaction rows it
hands to the store are, in block order, exactly those of the transactions
whose receipt is fetched (a failed receipt fetch skips that transaction
only), and when the store accepts these rows they are the rows it has
accepted; and contract-event processing is run after the transactions, its
events being part of the events of `processBlock` and its final world the
final world of `processBlock`, whether it returns an error or not. -/
theorem C7_receipt_failure_skips_one_transaction (ω : Type) (sys : Sys ω)
    (contracts : GoMap ContractConfig) (n : Nat) (w w1 w2 : ω) (block : Block)
    (R : Nat → Except Err Receipt)
    (hb : sys.BlockByNumber (int64 n) w = (.ok block, w1))
    (hs : sys.Exec (.insertBlock (blockRow sys block)) w1 = (none, w2))
    (hR : ∀ h w, (sys.TransactionReceipt h w).1 = R h) :
    (processBlock sys contracts n w).1 = none ∧
      transactionsOf (processBlock sys contracts n w).2.2 =
        rowsWithReceipt sys block R block.Transactions ∧
      ((∀ r ∈ rowsWithReceipt sys block R block.Transactions, ∀ w,
          (sys.Exec (.insertTransaction r) w).1 = none) →
        savedTransactionsOf (processBlock sys contracts n w).2.2 =
          rowsWithReceipt sys block R block.Transactions) ∧
      ∃ (w3 : ω) (before after : List Ev),
        (processBlock sys contracts n w).2.2 =
          before ++ (processContractEvents sys block contracts w3).2.2 ++ after ∧
        (processBlock sys contracts n w).2.1 =
          (processContractEvents sys block contracts w3).2.1 := by
  rw [processBlock_saved sys contracts n w w1 w2 block hb hs]
  refine ⟨rfl, ?_, ?_, ?_⟩
  · have h1 := processBlockTxLoop_rows sys block R hR block.Transactions w2
    have h2 := (belowTransaction_projections _ (processContractEvents_below sys block contracts
      (processBlockTxLoop sys block block.Transactions w2).1)).1
    unfold transactionsOf at h1 h2 ⊢
    simp only [List.filterMap_cons, List.filterMap_append, h1, h2, Ev.asTransaction,
      List.append_nil, List.filterMap_nil]
    split <;> simp [Ev.asTransaction]
  · intro hacc
    have h1 := processBlockTxLoop_saved_rows sys block R hR block.Transactions w2 hacc
    have h2 := belowTransaction_savedTransactions _ (processContractEvents_below sys block
      contracts (processBlockTxLoop sys block block.Transactions w2).1)
    unfold savedTransactionsOf at h1 h2 ⊢
    simp only [List.filterMap_cons, List.filterMap_append, h1, h2, Ev.asSavedTransaction,
      List.append_nil, List.filterMap_nil]
    split <;> simp [Ev.asSavedTransaction]
  · exact ⟨(processBlockTxLoop sys block block.Transactions w2).1,
      Ev.blockByNumber (int64 n) true :: Ev.exec (.insertBlock (blockRow sys block)) true ::
        (processBlockTxLoop sys block block.Transactions w2).2,
      (match (processContractEvents sys block contracts
          (processBlockTxLoop sys block block.Transactions w2).1).1 with
        | some _ => [Ev.log "处理合约事件失败"]
        | none => []) ++ [Ev.log "完成处理区块"],
      by simp only [List.cons_append, List.append_assoc], rfl⟩

/-- The store accepts every transaction row that it does not refuse. -/
theorem Store.exec_transaction_accepts (refuses : Stmt → Store → Option Err)
    (r : TransactionRow) (s : Store) (hr : refuses (.insertTransaction r) s = none) :
    (Store.exec refuses (.insertTransaction r) s).1 = none := by
  rw [Store.exec_admitted refuses _ s hr]
  by_cases h1 : ∃ x ∈ s.transactions, x.hash = r.hash
  · rw [Store.insert_transaction_present s r h1]
  · rw [Store.insert_transaction_new s r h1]

theorem chainSys_accepts_block0_rows :
    ∀ r ∈ rowsWithReceipt chainSys block0 receiptsTable block0.Transactions, ∀ w,
      (chainSys.Exec (.insertTransaction r) w).1 = none := by
  intro r hr w
  have hd : ∀ r ∈ rowsWithReceipt chainSys block0 receiptsTable block0.Transactions,
      driverCheck (.insertTransaction r) = none := by decide
  exact Store.exec_transaction_accepts driverRefuses r w (hd r hr)

/-- C7 on the example chain: block 0 holds the transactions `0x51`, `0x52`,
`0x53` and the receipt of `0x52` cannot be fetched; `processBlock` returns
`nil`, hands the rows of `0x51` and `0x53` to the store in that order, the
store accepts both, and it holds these two rows afterwards. -/
theorem C7_receipt_failure_witness :
    chainSys.BlockByNumber (int64 0) Store.empty = (.ok block0, Store.empty) ∧
      (chainSys.Exec (.insertBlock (blockRow chainSys block0)) Store.empty).1 = none ∧
      (∀ h w, (chainSys.TransactionReceipt h w).1 = receiptsTable h) ∧
      (∀ r ∈ rowsWithReceipt chainSys block0 receiptsTable block0.Transactions, ∀ w,
        (chainSys.Exec (.insertTransaction r) w).1 = none) ∧
      (processBlock chainSys [] 0 Store.empty).1 = none ∧
      (transactionsOf (processBlock chainSys [] 0 Store.empty).2.2).map (fun r => r.hash) =
        [hashHex 0x51, hashHex 0x53] ∧
      (savedTransactionsOf (processBlock chainSys [] 0 Store.empty).2.2).map
        (fun r => r.hash) = [hashHex 0x51, hashHex 0x53] ∧
      (processBlock chainSys [] 0 Store.empty).2.1.transactions.map (fun r => r.hash) =
        [hashHex 0x51, hashHex 0x53] :=
  have h := C7_receipt_failure_skips_one_transaction Store chainSys [] 0 Store.empty
    Store.empty _ block0 receiptsTable rfl rfl (fun _ _ => rfl)
  ⟨rfl, rfl, fun _ _ => rfl, chainSys_accepts_block0_rows, h.1,
    by rw [h.2.1]; decide,
    by rw [h.2.2.1 chainSys_accepts_block0_rows]; decide, by decide⟩

/-! ## Row write failures -/

/-- The contract-event rows handed to the store for one log do not depend on
what the store answers: a refused row is logged and the loop goes on. -/
theorem eventsLoop_rows {ω : Type} (sys : Sys ω) (contractABI : String) (block : Block)
    (vLog : Log) :
    ∀ (events : GoMap EventConfig) (w : ω),
      eventRowsOf (eventsLoop sys contractABI block vLog events w).2 =
        eventRowsFor sys contractABI block vLog events := by
  intro events
  induction events with
  | nil => intro w; rfl
  | cons ev rest ih =>
    intro w
    obtain ⟨eventName, eventConfig⟩ := ev
    rw [eventsLoop]
    unfold eventRowsFor
    rw [List.filterMap_cons]
    by_cases hc : 0 < vLog.Topics.length ∧
        vLog.Topics.head?.map hashHex = some eventConfig.Signature
    · rw [if_pos hc]
      simp only [if_pos hc]
      cases hu : sys.UnpackIntoMap contractABI eventName vLog.Data with
      | error e =>
        have := ih w
        unfold eventRowsOf eventRowsFor at this
        simp only [eventRowsOf, List.filterMap_cons, Ev.asEvent, this]
      | ok unpacked =>
        have := ih (saveContractEvent sys
          (eventOf block eventName eventConfig vLog unpacked sys.AddressHex) w).2.1
        unfold eventRowsOf eventRowsFor at this
        simp only [eventRowsOf, List.filterMap_append, this]
        cases hm : sys.jsonMarshal
            (eventOf block eventName eventConfig vLog unpacked sys.AddressHex).Data with
        | error e => simp [saveContractEvent, hm, Ev.asEvent]
        | ok js =>
          simp only [saveContractEvent, hm]
          cases (sys.Exec (Stmt.insertContractEvent
            { tx_hash := (eventOf block eventName eventConfig vLog unpacked sys.AddressHex).TxHash
              log_index :=
                (eventOf block eventName eventConfig vLog unpacked sys.AddressHex).LogIndex
              contract_address :=
                (eventOf block eventName eventConfig vLog unpacked sys.AddressHex).Address
              event_name :=
                (eventOf block eventName eventConfig vLog unpacked sys.AddressHex).EventName
              block_number :=
                (eventOf block eventName eventConfig vLog unpacked sys.AddressHex).BlockNumber
              timestamp :=
                (eventOf block eventName eventConfig vLog unpacked sys.AddressHex).Timestamp
              event_data := js }) w).1 <;>
            simp [Ev.asEvent, eventOf]
    · rw [if_neg hc]
      simp only [if_neg hc]
      have := ih w
      unfold eventRowsFor at this
      exact this

/-- C6 (as amended): a token-transfer or contract-event row the store refuses
is only logged, and every row after it is still handed to the store: the
transfer rows of a receipt and the event rows of a log are the same whatever
the store answers. A refused transaction row ends `processTransaction` with
the store's error before the token transfers of that transaction are looked
at, but `processBlock` goes on with the next transaction: the transaction rows
handed to the store are those of all transactions whose receipt is fetched,
whatever the store answers. A refused block row ends `processBlock` with the
store's error, and nothing more of that block is written. -/
theorem C6_row_write_failures (ω : Type) (sys : Sys ω) (contracts : GoMap ContractConfig)
    (n : Nat) (w w1 w2 : ω) (block : Block) (tx : Transaction) (receipt : Receipt) (e : Err) :
    (sys.BlockByNumber (int64 n) w = (.ok block, w1) →
      sys.Exec (.insertBlock (blockRow sys block)) w1 = (some e, w2) →
      processBlock sys contracts n w =
        (some e, w2, [Ev.blockByNumber (int64 n) true,
          Ev.exec (.insertBlock (blockRow sys block)) false])) ∧
    (sys.TransactionReceipt tx.Hash w = (.ok receipt, w1) →
      sys.Exec (.insertTransaction (transactionRow (txDataOf sys tx block receipt))) w1 =
        (some e, w2) →
      processTransaction sys tx block w =
        (some e, w2, [Ev.receipt tx.Hash true,
          Ev.exec (.insertTransaction (transactionRow (txDataOf sys tx block receipt)))
            false])) ∧
    (∀ (R : Nat → Except Err Receipt) (txs : List Transaction),
      (∀ h w, (sys.TransactionReceipt h w).1 = R h) →
      transactionsOf (processBlockTxLoop sys block txs w).2 =
        rowsWithReceipt sys block R txs) ∧
    transfersOf (processTokenTransfers sys receipt block w).2.2 =
      (receipt.Logs.filter isTransferShape).map (transferOf sys receipt block) ∧
    (∀ (contractABI : String) (vLog : Log) (events : GoMap EventConfig),
      eventRowsOf (eventsLoop sys contractABI block vLog events w).2 =
        eventRowsFor sys contractABI block vLog events) :=
  ⟨fun hb hs => processBlock_save_error sys contracts n w w1 w2 block e hb hs,
    fun hr hs => processTransaction_save_error sys tx block w w1 w2 receipt e hr hs,
    fun R txs hR => processBlockTxLoop_rows sys block R hR txs w,
    processTokenTransfersLoop_transfers sys receipt block receipt.Logs w,
    fun contractABI vLog events => eventsLoop_rows sys contractABI block vLog events w⟩

/-- C6 on the example chain in front of a store that is down: the refused
block row ends `processBlock` after two events; the refused row of `0x51` ends
`processTransaction` after two events; and although every transaction row is
refused, the rows of `0x51` and `0x53` are both handed to the store by the
transaction loop. -/
theorem C6_row_write_failures_witness :
    brokenStoreSys.BlockByNumber (int64 0) () = (.ok block0, ()) ∧
      brokenStoreSys.Exec (.insertBlock (blockRow brokenStoreSys block0)) () =
        (some "connection refused", ()) ∧
      processBlock brokenStoreSys [] 0 () =
        (some "connection refused", (), [Ev.blockByNumber (int64 0) true,
          Ev.exec (.insertBlock (blockRow brokenStoreSys block0)) false]) ∧
      brokenStoreSys.TransactionReceipt creationTx.Hash () =
        (.ok { TxHash := 0x51, GasUsed := 21000, Status := 1, Logs := [transferLog] }, ()) ∧
      processTransaction brokenStoreSys creationTx block0 () =
        (some "connection refused", (), [Ev.receipt creationTx.Hash true,
          Ev.exec (.insertTransaction (transactionRow (txDataOf brokenStoreSys creationTx block0
            { TxHash := 0x51, GasUsed := 21000, Status := 1, Logs := [transferLog] })))
            false]) ∧
      (∀ h w, (brokenStoreSys.TransactionReceipt h w).1 = receiptsTable h) ∧
      (transactionsOf (processBlockTxLoop brokenStoreSys block0
          block0.Transactions ()).2).map (fun r => r.hash) = [hashHex 0x51, hashHex 0x53] :=
  have h := C6_row_write_failures Unit brokenStoreSys [] 0 () () () block0 creationTx
    { TxHash := 0x51, GasUsed := 21000, Status := 1, Logs := [transferLog] }
    "connection refused"
  ⟨rfl, rfl, h.1 rfl rfl, rfl, h.2.1 rfl rfl, fun _ _ => rfl,
    by rw [h.2.2.1 receiptsTable block0.Transactions (fun _ _ => rfl)]; decide⟩

/-- C6 (counterexample): on the example chain in front of a store that is
down, block 0 has three transactions, yet `processBlock` returns the error of
the refused block row and hands no transaction row to the store; and the
receipt of `0x51` holds a log of `Transfer` shape, yet `processTransaction`
returns the error of the refused transaction row and hands no token-transfer
row to the store. -/
theorem C6_failed_save_stops_later_rows :
    block0.Transactions.length = 3 ∧
      (processBlock brokenStoreSys [] 0 ()).1 = some "connection refused" ∧
      execsOf (processBlock brokenStoreSys [] 0 ()).2.2 =
        [(Stmt.insertBlock (blockRow brokenStoreSys block0), false)] ∧
      transactionsOf (processBlock brokenStoreSys [] 0 ()).2.2 = [] ∧
      receiptsTable creationTx.Hash =
        .ok { TxHash := 0x51, GasUsed := 21000, Status := 1, Logs := [transferLog] } ∧
      isTransferShape transferLog = true ∧
      (processTransaction brokenStoreSys creationTx block0 ()).1 = some "connection refused" ∧
      transfersOf (processTransaction brokenStoreSys creationTx block0 ()).2.2 = [] := by
  have hb := processBlock_save_error brokenStoreSys [] 0 () () () block0 "connection refused"
    rfl rfl
  have ht := processTransaction_save_error brokenStoreSys creationTx block0 () () ()
    { TxHash := 0x51, GasUsed := 21000, Status := 1, Logs := [transferLog] }
    "connection refused" rfl rfl
  rw [hb, ht]
  exact ⟨rfl, rfl, rfl, rfl, rfl, by decide, rfl, rfl⟩

/-! ## Batches -/

/-- Every call of `processBlock` requests its block once; it leaves one
accepted block row when it returns `nil` and none when it returns an error. -/
theorem processBlock_observed {ω : Type} (sys : Sys ω) (contracts : GoMap ContractConfig)
    (n : Nat) (w : ω) :
    fetchedOf (processBlock sys contracts n w).2.2 = [int64 n] ∧
      ((processBlock sys contracts n w).1 = none →
        (savedBlocksOf (processBlock sys contracts n w).2.2).length = 1) ∧
      ((processBlock sys contracts n w).1 ≠ none →
        savedBlocksOf (processBlock sys contracts n w).2.2 = []) := by
  cases hb : sys.BlockByNumber (int64 n) w with
  | mk res w1 =>
    cases res with
    | error e =>
      rw [processBlock_fetch_error sys contracts n w w1 e hb]
      exact ⟨rfl, fun h => (by cases h), fun _ => rfl⟩
    | ok block =>
      cases hs : sys.Exec (.insertBlock (blockRow sys block)) w1 with
      | mk err w2 =>
        cases err with
        | some e =>
          rw [processBlock_save_error sys contracts n w w1 w2 block e hb hs]
          exact ⟨rfl, fun h => (by cases h), fun _ => rfl⟩
        | none =>
          rw [processBlock_saved sys contracts n w w1 w2 block hb hs]
          have hall : ((processBlockTxLoop sys block block.Transactions w2).2 ++
              (processContractEvents sys block contracts
                (processBlockTxLoop sys block block.Transactions w2).1).2.2 ++
              (match (processContractEvents sys block contracts
                  (processBlockTxLoop sys block block.Transactions w2).1).1 with
                | some _ => [Ev.log "处理合约事件失败"]
                | none => []) ++
              [Ev.log "完成处理区块"]).all Ev.belowBlock = true := by
            simp only [List.all_append, processBlockTxLoop_below,
              (belowTransaction_projections _ (processContractEvents_below sys block contracts
                (processBlockTxLoop sys block block.Transactions w2).1)).2.2.2, Bool.true_and]
            split <;> rfl
          have h1 := (belowBlock_projections _ hall).2
          have h2 := belowBlock_savedBlocks _ hall
          unfold fetchedOf at h1 ⊢
          unfold savedBlocksOf at h2 ⊢
          refine ⟨?_, fun _ => ?_, fun h => absurd rfl h⟩
          · simp only [List.filterMap_cons, Ev.asFetch, h1]
          · simp only [List.filterMap_cons, Ev.asSavedBlock, h2, List.length_singleton]

theorem processBatchLoop_fail {ω : Type} (sys : Sys ω) (contracts : GoMap ContractConfig)
    (endBlock fuel blockNum : Nat) (w : ω) (err : Err) (hle : blockNum ≤ endBlock)
    (hres : (processBlock sys contracts blockNum w).1 = some err) :
    processBatchLoop sys contracts endBlock (fuel + 1) blockNum w =
      (some (some ("处理区块 " ++ Nat.repr blockNum ++ " 失败: " ++ err)),
        (processBlock sys contracts blockNum w).2.1,
        (processBlock sys contracts blockNum w).2.2) := by
  rw [processBatchLoop, if_pos hle]
  simp only [hres]

theorem processBatchLoop_ok {ω : Type} (sys : Sys ω) (contracts : GoMap ContractConfig)
    (endBlock fuel blockNum : Nat) (w : ω) (hle : blockNum ≤ endBlock)
    (hres : (processBlock sys contracts blockNum w).1 = none) :
    processBatchLoop sys contracts endBlock (fuel + 1) blockNum w =
      ((processBatchLoop sys contracts endBlock fuel ((blockNum + 1) % u64)
          (processBlock sys contracts blockNum w).2.1).1,
        (processBatchLoop sys contracts endBlock fuel ((blockNum + 1) % u64)
          (processBlock sys contracts blockNum w).2.1).2.1,
        (processBlock sys contracts blockNum w).2.2 ++
          (processBatchLoop sys contracts endBlock fuel ((blockNum + 1) % u64)
            (processBlock sys contracts blockNum w).2.1).2.2) := by
  rw [processBatchLoop, if_pos hle]
  simp only [hres]

/-- The loop of `processBatch` from `blockNum`, when block `k = blockNum + d`
fails in every world: it returns an error at the first failing block. -/
theorem processBatchLoop_first_failure {ω : Type} (sys : Sys ω)
    (contracts : GoMap ContractConfig) (endBlock k : Nat) (hke : k ≤ endBlock)
    (he : endBlock < u64) (hfail : ∀ w, (processBlock sys contracts k w).1 ≠ none) :
    ∀ (d blockNum fuel : Nat) (w : ω), blockNum + d = k → d < fuel →
      ∃ (err : Err) (j : Nat),
        (processBatchLoop sys contracts endBlock fuel blockNum w).1 = some (some err) ∧
        j ≤ d ∧
        fetchedOf (processBatchLoop sys contracts endBlock fuel blockNum w).2.2 =
          (List.range' blockNum (j + 1)).map (fun i => int64 i) ∧
        (savedBlocksOf (processBatchLoop sys contracts endBlock fuel blockNum w).2.2).length =
          j := by
  intro d
  induction d with
  | zero =>
    intro blockNum fuel w hk hf
    obtain ⟨f, rfl⟩ : ∃ f, fuel = f + 1 := ⟨fuel - 1, by omega⟩
    have hbk : blockNum = k := by omega
    obtain ⟨o1, _, o3⟩ := processBlock_observed sys contracts blockNum w
    cases hres : (processBlock sys contracts blockNum w).1 with
    | none => exact absurd hres (hbk ▸ hfail w)
    | some err =>
      rw [processBatchLoop_fail sys contracts endBlock f blockNum w err (by omega) hres]
      refine ⟨_, 0, rfl, le_refl _, ?_, ?_⟩
      · rw [o1]; rfl
      · rw [o3 (by rw [hres]; simp)]; rfl
  | succ d ih =>
    intro blockNum fuel w hk hf
    obtain ⟨f, rfl⟩ : ∃ f, fuel = f + 1 := ⟨fuel - 1, by omega⟩
    obtain ⟨o1, o2, o3⟩ := processBlock_observed sys contracts blockNum w
    cases hres : (processBlock sys contracts blockNum w).1 with
    | some err =>
      rw [processBatchLoop_fail sys contracts endBlock f blockNum w err (by omega) hres]
      refine ⟨_, 0, rfl, Nat.zero_le _, ?_, ?_⟩
      · rw [o1]; rfl
      · rw [o3 (by rw [hres]; simp)]; rfl
    | none =>
      rw [processBatchLoop_ok sys contracts endBlock f blockNum w (by omega) hres]
      have hnext : (blockNum + 1) % u64 = blockNum + 1 := Nat.mod_eq_of_lt (by omega)
      rw [hnext]
      obtain ⟨err, j, i1, i2, i3, i4⟩ := ih (blockNum + 1) f
        (processBlock sys contracts blockNum w).2.1 (by omega) (by omega)
      refine ⟨err, j + 1, i1, by omega, ?_, ?_⟩
      · unfold fetchedOf at o1 i3 ⊢
        simp only [List.filterMap_append, o1, i3]
        rw [List.range'_succ blockNum (j + 1)]
        rfl
      · have o2b := o2 hres
        unfold savedBlocksOf at o2b i4 ⊢
        simp only [List.filterMap_append, List.length_append, o2b, i4]
        omega

/-- C5 (as amended): for every batch `[b, e]` and every block `k` in
`[b, e]` whose processing fails, `processBatch` returns an error at the first
failing block `b + j ≤ k`: the blocks requested from the node are exactly
`b, b+1, ..., b+j` in order, so no block after the first failing one is
fetched or saved by that call; the `j` blocks before it have been processed
and their block rows, accepted by the store, are not undone. -/
theorem C5_batch_stops_at_first_failure (ω : Type) (sys : Sys ω)
    (contracts : GoMap ContractConfig) (b e k : Nat) (hbk : b ≤ k) (hke : k ≤ e)
    (he : e < u64) (hfail : ∀ w, (processBlock sys contracts k w).1 ≠ none)
    (fuel : Nat) (hf : k - b < fuel) (w : ω) :
    ∃ (err : Err) (j : Nat),
      (processBatch sys contracts b e fuel w).1 = some (some err) ∧
      b + j ≤ k ∧
      fetchedOf (processBatch sys contracts b e fuel w).2.2 =
        (List.range' b (j + 1)).map (fun i => int64 i) ∧
      (savedBlocksOf (processBatch sys contracts b e fuel w).2.2).length = j := by
  obtain ⟨err, j, h1, h2, h3, h4⟩ :=
    processBatchLoop_first_failure sys contracts e k hke he hfail (k - b) b fuel w
      (by omega) hf
  exact ⟨err, j, h1, by omega, h3, h4⟩

theorem chainSys_block1_fails (w : Store) : (processBlock chainSys [] 1 w).1 ≠ none := by
  rw [processBlock_fetch_error chainSys [] 1 w w "not found" rfl]
  simp

/-- C5 on the example chain: in the batch `[0, 1]` block 1 cannot be fetched;
`processBatch` returns an error at a first failing block not after 1. -/
theorem C5_batch_stops_witness :
    (0 ≤ 1 ∧ 1 ≤ 1 ∧ 1 < u64 ∧ 1 - 0 < 2) ∧
      (∀ w, (processBlock chainSys [] 1 w).1 ≠ none) ∧
      ∃ (err : Err) (j : Nat),
        (processBatch chainSys [] 0 1 2 Store.empty).1 = some (some err) ∧
        0 + j ≤ 1 ∧
        fetchedOf (processBatch chainSys [] 0 1 2 Store.empty).2.2 =
          (List.range' 0 (j + 1)).map (fun i => int64 i) ∧
        (savedBlocksOf (processBatch chainSys [] 0 1 2 Store.empty).2.2).length = j :=
  ⟨by decide, chainSys_block1_fails,
    C5_batch_stops_at_first_failure Store chainSys [] 0 1 1 (by decide) (by decide) (by decide)
      chainSys_block1_fails 2 (by decide) Store.empty⟩

/-- C5 (counterexample): on the example chain, in the batch `[0, 1]` the
processing of block 1 fails and `processBatch` returns an error, yet the block
row of block 0, a block of that batch, was accepted by the store during that
call and is in the store afterwards. -/
theorem C5_earlier_block_stays_saved :
    (processBlock chainSys [] 1 Store.empty).1 ≠ none ∧
      (processBatch chainSys [] 0 1 2 Store.empty).1 ≠ none ∧
      (processBatch chainSys [] 0 1 2 Store.empty).1 ≠ some none ∧
      savedBlocksOf (processBatch chainSys [] 0 1 2 Store.empty).2.2 =
        [blockRow chainSys block0] ∧
      (processBatch chainSys [] 0 1 2 Store.empty).2.1.blockAt 0 =
        [blockRow chainSys block0] := by
  decide

/-- A call of `processBatch` for an interval whose end lies below its start
processes no block and returns `nil` at once. -/
theorem processBatch_empty_interval {ω : Type} (sys : Sys ω) (contracts : GoMap ContractConfig)
    (startBlock endBlock fuel : Nat) (w : ω) (h : endBlock < startBlock) :
    processBatch sys contracts startBlock endBlock (fuel + 1) w = (some none, w, []) := by
  unfold processBatch
  rw [processBatchLoop, if_neg (by omega)]

end Crawler
